import Mathlib

set_option maxHeartbeats 1000000
set_option maxRecDepth 4000

/-!
Verification of the storage layer of the table-stats application
(`src/storage.py`).  The Python code is shallowly embedded: dicts become
ordered association lists, JSON values an inductive type, `decimal.Decimal`
becomes sign/coefficient/exponent triples rounded to the default context's
28 significant digits, the filesystem an association list from file names to
parsed-or-malformed contents, and the nondeterministic collaborators of the
code (`uuid`-based id generation, the clock) become explicit parameters.
Exceptions of fallible operations are modelled with `Except`.
-/

namespace TableStats

/-! ### Ordered association lists (Python `dict`)

Python dicts preserve insertion order; assigning to an existing key keeps its
position, assigning to a fresh key appends.  `aget`/`aset`/`asetdefault`
model `d.get(k)`, `d[k] = v` and `d.setdefault(k, v)`. -/

def aget {α : Type} : List (String × α) → String → Option α
  | [], _ => none
  | (k, v) :: rest, key => if k = key then some v else aget rest key

def aset {α : Type} : List (String × α) → String → α → List (String × α)
  | [], key, val => [(key, val)]
  | (k, v) :: rest, key, val =>
      if k = key then (k, val) :: rest else (k, v) :: aset rest key val

def containsKey {α : Type} (m : List (String × α)) (k : String) : Bool :=
  (aget m k).isSome

def asetdefault {α : Type} (m : List (String × α)) (k : String) (v : α) :
    List (String × α) :=
  if containsKey m k then m else aset m k v

theorem aget_aset_self {α : Type} (m : List (String × α)) (k : String) (v : α) :
    aget (aset m k v) k = some v := by
  induction m with
  | nil => simp [aget, aset]
  | cons hd tl ih =>
      obtain ⟨k', v'⟩ := hd
      by_cases h : k' = k <;> simp [aget, aset, h, ih]

theorem aget_aset_ne {α : Type} (m : List (String × α)) (k k' : String) (v : α)
    (h : k ≠ k') : aget (aset m k v) k' = aget m k' := by
  induction m with
  | nil => simp [aget, aset, h]
  | cons hd tl ih =>
      obtain ⟨k0, v0⟩ := hd
      by_cases h0 : k0 = k
      · subst h0
        simp [aget, aset, h]
      · simp only [aset, if_neg h0, aget]
        by_cases h1 : k0 = k' <;> simp [h1, ih]

theorem aset_same {α : Type} (m : List (String × α)) (k : String) (v : α)
    (h : aget m k = some v) : aset m k v = m := by
  induction m with
  | nil => simp [aget] at h
  | cons hd tl ih =>
      obtain ⟨k0, v0⟩ := hd
      by_cases h0 : k0 = k
      · subst h0
        simp [aget] at h
        simp [aset, h]
      · simp [aget, h0] at h
        simp [aset, h0, ih h]

theorem containsKey_of_aget {α : Type} {m : List (String × α)} {k : String} {v : α}
    (h : aget m k = some v) : containsKey m k = true := by
  simp [containsKey, h]

theorem aget_asetdefault_of_contains {α : Type} {m : List (String × α)} {k : String}
    {v : α} (w : α) (h : aget m k = some v) : asetdefault m k w = m := by
  simp [asetdefault, containsKey_of_aget h]

theorem aget_asetdefault_of_absent {α : Type} {m : List (String × α)} {k : String}
    (w : α) (h : aget m k = none) : asetdefault m k w = aset m k w := by
  simp [asetdefault, containsKey, h]

theorem aget_asetdefault_ne {α : Type} (m : List (String × α)) (k k' : String)
    (v : α) (h : k ≠ k') : aget (asetdefault m k v) k' = aget m k' := by
  unfold asetdefault
  by_cases hc : containsKey m k <;> simp [hc, aget_aset_ne m k k' v h]

theorem aget_asetdefault_self {α : Type} (m : List (String × α)) (k : String) (v : α) :
    aget (asetdefault m k v) k = some v ∨ aget (asetdefault m k v) k = aget m k := by
  unfold asetdefault
  by_cases hc : containsKey m k
  · right; simp [hc]
  · left; simp [hc, aget_aset_self]

/-! ### Python strings: whitespace stripping -/

def isPySpace (c : Char) : Bool :=
  c = ' ' || c = '\t' || c = '\n' || c = '\x0d' || c = '\x0b' || c = '\x0c'

def stripL (l : List Char) : List Char :=
  ((l.dropWhile isPySpace).reverse.dropWhile isPySpace).reverse

/-- Python `str.strip()` (ASCII whitespace; the Unicode extras are irrelevant
to the repository's data). -/
def pyStrip (s : String) : String := String.mk (stripL s.data)

/-- Python `str.rstrip(c)` for a single strip character. -/
def rstripL (cs : List Char) (bad : Char) : List Char :=
  (cs.reverse.dropWhile (fun c => c = bad)).reverse

theorem dropWhile_eq_self_of_all {p : Char → Bool} :
    ∀ l : List Char, (∀ c ∈ l, p c = false) → l.dropWhile p = l := by
  intro l h
  cases l with
  | nil => rfl
  | cons a as => simp [List.dropWhile, h a (by simp)]

theorem stripL_eq_self {l : List Char} (h : ∀ c ∈ l, isPySpace c = false) :
    stripL l = l := by
  unfold stripL
  rw [dropWhile_eq_self_of_all l h, dropWhile_eq_self_of_all, List.reverse_reverse]
  intro c hc
  exact h c (by simpa using hc)

theorem rstripL_eq_self {cs : List Char} {bad : Char}
    (h : ∀ c ∈ cs, (c = bad) = False) : rstripL cs bad = cs := by
  unfold rstripL
  rw [dropWhile_eq_self_of_all, List.reverse_reverse]
  intro c hc
  simpa using fun hcb => (h c (by simpa using hc)).mp hcb

/-! ### Decimal digit characters -/

def dChar (k : Nat) : Char := Char.ofNat (48 + k % 10)

def digitVal (c : Char) : Nat := c.toNat - 48

/-- Little-endian decimal digits, with explicit fuel to keep the recursion
structural (and hence kernel-computable); the fuel is irrelevant once it is at
least the argument. -/
def natDigitsRevF : Nat → Nat → List Char
  | _, 0 => []
  | 0, _ + 1 => []
  | f + 1, m + 1 => dChar ((m + 1) % 10) :: natDigitsRevF f ((m + 1) / 10)

def natDigitsRev (n : Nat) : List Char := natDigitsRevF n n

theorem natDigitsRevF_congr : ∀ (n f g : Nat), n ≤ f → n ≤ g →
    natDigitsRevF f n = natDigitsRevF g n := by
  intro n
  induction n using Nat.strong_induction_on with
  | _ n ih =>
      intro f g hf hg
      match n, f, g, hf, hg with
      | 0, f, g, _, _ => cases f <;> cases g <;> rfl
      | m + 1, f + 1, g + 1, hf, hg =>
          show dChar _ :: natDigitsRevF f ((m + 1) / 10) =
            dChar _ :: natDigitsRevF g ((m + 1) / 10)
          congr 1
          exact ih ((m + 1) / 10) (by omega) f g (by omega) (by omega)

theorem natDigitsRev_zero : natDigitsRev 0 = [] := rfl

def natDigits (n : Nat) : List Char :=
  if n = 0 then ['0'] else (natDigitsRev n).reverse

def digitsStr (n : Nat) : String := String.mk (natDigits n)

theorem dChar_facts : ∀ j : Nat, j < 10 →
    (dChar j).isDigit = true ∧ digitVal (dChar j) = j ∧ isPySpace (dChar j) = false ∧
    ((dChar j) = '-') = False ∧ ((dChar j) = '.') = False := by decide

theorem dChar_toNat (j : Nat) (h : j < 10) : (dChar j).toNat = 48 + j := by
  interval_cases j <;> decide

/-! ### JSON values (the universe of Python values handled by the storage layer)

JSON integers are modelled exactly; JSON fractional numbers (binary floats in
Python) are outside the embedding — every numeric field of the repository's
data model is stored as a string precisely to avoid floats. -/

inductive JVal : Type where
  | null : JVal
  | bool : Bool → JVal
  | num : Int → JVal
  | str : String → JVal
  | arr : List JVal → JVal
  | obj : List (String × JVal) → JVal

/-- Python truthiness (`bool(x)`) on the embedded values. -/
def truthy : JVal → Bool
  | .null => false
  | .bool b => b
  | .num n => decide (n ≠ 0)
  | .str s => decide (s ≠ "")
  | .arr l => !l.isEmpty
  | .obj m => !m.isEmpty

mutual

/-- Python `repr` of a value (with `pyReprList` / `pyReprObj` for the
comma-separated container bodies).  The refinement of Python's quote selection
and character escaping inside string reprs is elided (always single quotes) —
the storage layer only ever inspects reprs for emptiness after stripping,
never their exact text. -/
def pyRepr : JVal → String
  | .null => "None"
  | .bool true => "True"
  | .bool false => "False"
  | .num n => toString n
  | .str s => "'" ++ s ++ "'"
  | .arr xs => "[" ++ pyReprList xs ++ "]"
  | .obj fs => "\x7b" ++ pyReprObj fs ++ "\x7d"

def pyReprList : List JVal → String
  | [] => ""
  | [x] => pyRepr x
  | x :: xs => pyRepr x ++ ", " ++ pyReprList xs

def pyReprObj : List (String × JVal) → String
  | [] => ""
  | [(k, v)] => "'" ++ k ++ "': " ++ pyRepr v
  | (k, v) :: fs => "'" ++ k ++ "': " ++ pyRepr v ++ ", " ++ pyReprObj fs

end

/-- Python `str(x)`: identity on strings, `repr` otherwise (scalars print as
`None` / `True` / `False` / decimal integers). -/
def pyStr : JVal → String
  | .str s => s
  | v => pyRepr v

/-- Python `x or d` where `x` came from `dict.get` (absent key gives `None`). -/
def pyOr (v : Option JVal) (d : JVal) : JVal :=
  match v with
  | some x => if truthy x then x else d
  | none => d

/-- The ubiquitous `str(m.get(k) or "")` idiom of the source. -/
def strOr (v : Option JVal) : String := pyStr (pyOr v (.str ""))

theorem strOr_str (s : String) : strOr (some (.str s)) = s := by
  by_cases h : s = "" <;> simp [strOr, pyOr, truthy, pyStr, h]

theorem strOr_none : strOr none = "" := rfl

/-! ### Calendar dates (`datetime.date`)

`addDays` models `date + timedelta(days = i)` on the proleptic Gregorian
calendar; Python's `OverflowError` past year 9999 is outside the embedding
(the claims constrain dates to Python's domain through `PyDate.Valid`). -/

structure PyDate : Type where
  year : Nat
  month : Nat
  day : Nat
deriving DecidableEq

def isLeap (y : Nat) : Bool :=
  y % 4 = 0 && (y % 100 ≠ 0 || y % 400 = 0)

def daysInMonth (y m : Nat) : Nat :=
  if m = 2 then (if isLeap y then 29 else 28)
  else if m = 4 ∨ m = 6 ∨ m = 9 ∨ m = 11 then 30
  else 31

def succDay (d : PyDate) : PyDate :=
  if d.day < daysInMonth d.year d.month then ⟨d.year, d.month, d.day + 1⟩
  else if d.month < 12 then ⟨d.year, d.month + 1, 1⟩
  else ⟨d.year + 1, 1, 1⟩

def addDays (d : PyDate) : Nat → PyDate
  | 0 => d
  | n + 1 => succDay (addDays d n)

def PyDate.Valid (d : PyDate) : Prop :=
  1 ≤ d.year ∧ d.year ≤ 9999 ∧ 1 ≤ d.month ∧ d.month ≤ 12 ∧
    1 ≤ d.day ∧ d.day ≤ daysInMonth d.year d.month

instance (d : PyDate) : Decidable d.Valid := by
  unfold PyDate.Valid
  infer_instance

/-- `%02d`. -/
def pad2 (n : Nat) : List Char :=
  if n < 10 then ['0', dChar n] else natDigits n

/-- `%04d` (years above 9999 print in full, as in Python's `str.format`). -/
def pad4 (n : Nat) : List Char :=
  if n < 10000 then
    [dChar (n / 1000), dChar (n / 100 % 10), dChar (n / 10 % 10), dChar (n % 10)]
  else natDigits n

/-- `date.isoformat()`. -/
def PyDate.toIso (d : PyDate) : String :=
  String.mk (pad4 d.year ++ '-' :: pad2 d.month ++ '-' :: pad2 d.day)

/-- `date.fromisoformat` on the canonical `YYYY-MM-DD` layout (the variants
newer Pythons additionally accept, such as `YYYYMMDD`, are not modelled; the
repository only ever feeds this canonical layout back in). -/
def isoParseL : List Char → Option PyDate
  | [y1, y2, y3, y4, h1, m1, m2, h2, d1, d2] =>
      if y1.isDigit && y2.isDigit && y3.isDigit && y4.isDigit && h1 = '-' &&
          m1.isDigit && m2.isDigit && h2 = '-' && d1.isDigit && d2.isDigit then
        let y := ((digitVal y1 * 10 + digitVal y2) * 10 + digitVal y3) * 10 + digitVal y4
        let m := digitVal m1 * 10 + digitVal m2
        let dd := digitVal d1 * 10 + digitVal d2
        if 1 ≤ y ∧ y ≤ 9999 ∧ 1 ≤ m ∧ m ≤ 12 ∧ 1 ≤ dd ∧ dd ≤ daysInMonth y m then
          some ⟨y, m, dd⟩
        else none
      else none
  | _ => none

/-- `parse_iso_date` of the source: `None` for non-strings, strip, `None` when
empty or unparsable. -/
def parse_iso_date (v : Option JVal) : Option PyDate :=
  match v with
  | some (.str s) =>
      let t := pyStrip s
      if t = "" then none else isoParseL t.data
  | _ => none

theorem dChar_mod (j : Nat) : dChar (j % 10) = dChar j := by
  unfold dChar
  congr 1
  omega

theorem isPySpace_dChar (j : Nat) : isPySpace (dChar j) = false := by
  rw [← dChar_mod]
  exact (dChar_facts (j % 10) (by omega)).2.2.1

theorem isDigit_dChar (j : Nat) : (dChar j).isDigit = true := by
  rw [← dChar_mod]
  exact (dChar_facts (j % 10) (by omega)).1

theorem digitVal_dChar {j : Nat} (h : j < 10) : digitVal (dChar j) = j := by
  exact (dChar_facts j h).2.1

theorem dChar_ne_dash (j : Nat) : (dChar j = '-') = False := by
  rw [← dChar_mod]
  exact (dChar_facts (j % 10) (by omega)).2.2.2.1

theorem natDigitsRev_unfold (n : Nat) (h : n ≠ 0) :
    natDigitsRev n = dChar (n % 10) :: natDigitsRev (n / 10) := by
  obtain ⟨m, rfl⟩ : ∃ m, n = m + 1 := ⟨n - 1, by omega⟩
  unfold natDigitsRev
  rw [show natDigitsRevF (m + 1) (m + 1) =
      dChar ((m + 1) % 10) :: natDigitsRevF m ((m + 1) / 10) from rfl]
  congr 1
  exact natDigitsRevF_congr ((m + 1) / 10) m ((m + 1) / 10) (by omega) (le_refl _)

theorem natDigitsRev_two {n : Nat} (h1 : 10 ≤ n) (h2 : n ≤ 99) :
    natDigitsRev n = [dChar (n % 10), dChar (n / 10)] := by
  rw [natDigitsRev_unfold n (by omega), natDigitsRev_unfold (n / 10) (by omega),
    show n / 10 / 10 = 0 by omega]
  rw [natDigitsRev_zero]
  simp [dChar_mod]

theorem pad2_eq {n : Nat} (h : n ≤ 99) : pad2 n = [dChar (n / 10), dChar (n % 10)] := by
  unfold pad2
  by_cases h10 : n < 10
  · rw [if_pos h10, show n / 10 = 0 by omega, show n % 10 = n by omega]
    rfl
  · rw [if_neg h10]
    simp [natDigits, show ¬n = 0 by omega, natDigitsRev_two (by omega) h]

theorem daysInMonth_le_31 (y m : Nat) : daysInMonth y m ≤ 31 := by
  unfold daysInMonth
  split_ifs <;> omega

theorem toIso_data_of_valid {y m dd : Nat} (hy : y ≤ 9999) (hm : m ≤ 99)
    (hd : dd ≤ 99) :
    (PyDate.toIso ⟨y, m, dd⟩).data =
      [dChar (y / 1000), dChar (y / 100 % 10), dChar (y / 10 % 10), dChar (y % 10),
       '-', dChar (m / 10), dChar (m % 10), '-', dChar (dd / 10), dChar (dd % 10)] := by
  show (pad4 y ++ '-' :: pad2 m ++ '-' :: pad2 dd) = _
  rw [pad2_eq hm, pad2_eq hd]
  unfold pad4
  rw [if_pos (by omega : y < 10000), dChar_mod]
  rfl

theorem pyStrip_of_no_space {s : String} (h : ∀ c ∈ s.data, isPySpace c = false) :
    pyStrip s = s := by
  unfold pyStrip
  rw [stripL_eq_self h]

theorem string_mk_ne_empty {l : List Char} (h : l ≠ []) : String.mk l ≠ "" := by
  intro he
  exact h (congrArg String.data he)

/-- Validity travels back through the canonical format. -/
theorem isoParseL_toIso {d : PyDate} (h : d.Valid) :
    isoParseL d.toIso.data = some d := by
  obtain ⟨y, m, dd⟩ := d
  have h1 : 1 ≤ y := h.1
  have h2 : y ≤ 9999 := h.2.1
  have h3 : 1 ≤ m := h.2.2.1
  have h4 : m ≤ 12 := h.2.2.2.1
  have h5 : 1 ≤ dd := h.2.2.2.2.1
  have h6 : dd ≤ daysInMonth y m := h.2.2.2.2.2
  have hm99 : m ≤ 99 := by omega
  have hd99 : dd ≤ 99 := by
    have := daysInMonth_le_31 y m
    omega
  rw [toIso_data_of_valid h2 hm99 hd99]
  unfold isoParseL
  dsimp only
  have ey : ((digitVal (dChar (y / 1000)) * 10 + digitVal (dChar (y / 100 % 10))) * 10 +
      digitVal (dChar (y / 10 % 10))) * 10 + digitVal (dChar (y % 10)) = y := by
    rw [digitVal_dChar (by omega), digitVal_dChar (by omega), digitVal_dChar (by omega),
      digitVal_dChar (by omega)]
    omega
  have em : digitVal (dChar (m / 10)) * 10 + digitVal (dChar (m % 10)) = m := by
    rw [digitVal_dChar (by omega), digitVal_dChar (by omega)]
    omega
  have ed : digitVal (dChar (dd / 10)) * 10 + digitVal (dChar (dd % 10)) = dd := by
    rw [digitVal_dChar (by omega), digitVal_dChar (by omega)]
    omega
  rw [if_pos (by simp [isDigit_dChar])]
  simp only [ey, em, ed]
  rw [if_pos ⟨h1, h2, h3, h4, h5, h6⟩]

theorem natDigitsRev_no_space : ∀ n : Nat, ∀ c ∈ natDigitsRev n, isPySpace c = false := by
  intro n
  induction n using Nat.strong_induction_on with
  | _ n ih =>
      by_cases h : n = 0
      · subst h
        rw [natDigitsRev_zero]
        simp
      · rw [natDigitsRev_unfold n h]
        intro c hc
        rcases List.mem_cons.mp hc with rfl | hc
        · exact isPySpace_dChar _
        · exact ih (n / 10) (by omega) c hc

theorem natDigits_no_space (n : Nat) : ∀ c ∈ natDigits n, isPySpace c = false := by
  unfold natDigits
  split
  · intro c hc
    simp only [List.mem_singleton] at hc
    subst hc
    rfl
  · intro c hc
    exact natDigitsRev_no_space n c (List.mem_reverse.mp hc)

theorem natDigits_ne_nil (n : Nat) : natDigits n ≠ [] := by
  unfold natDigits
  split
  · simp
  · rename_i h
    rw [natDigitsRev_unfold n h]
    simp

theorem pad2_no_space (n : Nat) : ∀ c ∈ pad2 n, isPySpace c = false := by
  unfold pad2
  split
  · intro c hc
    rcases List.mem_cons.mp hc with rfl | hc
    · rfl
    · simp only [List.mem_singleton] at hc
      subst hc
      exact isPySpace_dChar _
  · exact natDigits_no_space n

theorem pad4_no_space (n : Nat) : ∀ c ∈ pad4 n, isPySpace c = false := by
  unfold pad4
  split
  · intro c hc
    simp only [List.mem_cons, List.not_mem_nil, or_false] at hc
    rcases hc with rfl | rfl | rfl | rfl <;> exact isPySpace_dChar _
  · exact natDigits_no_space n

theorem pad4_ne_nil (n : Nat) : pad4 n ≠ [] := by
  unfold pad4
  split
  · simp
  · exact natDigits_ne_nil n

theorem toIso_no_space (d : PyDate) : ∀ c ∈ d.toIso.data, isPySpace c = false := by
  intro c hc
  have hc' : c ∈ (pad4 d.year ++ '-' :: pad2 d.month) ++ '-' :: pad2 d.day := hc
  rcases List.mem_append.mp hc' with h12 | h3
  · rcases List.mem_append.mp h12 with h4 | h2
    · exact pad4_no_space _ c h4
    · rcases List.mem_cons.mp h2 with rfl | h2
      · rfl
      · exact pad2_no_space _ c h2
  · rcases List.mem_cons.mp h3 with rfl | h3
    · rfl
    · exact pad2_no_space _ c h3

theorem pyStrip_toIso (d : PyDate) : pyStrip d.toIso = d.toIso :=
  pyStrip_of_no_space (toIso_no_space d)

theorem toIso_ne_empty (d : PyDate) : d.toIso ≠ "" := by
  apply string_mk_ne_empty
  intro h
  exact pad4_ne_nil d.year (List.append_eq_nil.mp (List.append_eq_nil.mp h).1).1

/-- The round trip behind every re-resolution of a start date. -/
theorem parse_iso_date_toIso {d : PyDate} (h : d.Valid) :
    parse_iso_date (some (.str d.toIso)) = some d := by
  unfold parse_iso_date
  dsimp only
  rw [pyStrip_toIso]
  rw [if_neg (toIso_ne_empty d)]
  exact isoParseL_toIso h

/-- Any date produced by the parser is valid (Python's `date` constructor
validates its arguments). -/
theorem isoParseL_valid : ∀ {l : List Char} {d : PyDate},
    isoParseL l = some d → d.Valid := by
  intro l d h
  match l with
  | [y1, y2, y3, y4, c1, m1, m2, c2, d1, d2] =>
      unfold isoParseL at h
      dsimp only at h
      split_ifs at h with hdig hrange
      injection h with h
      subst h
      exact hrange
  | [] | [_] | [_, _] | [_, _, _] | [_, _, _, _] | [_, _, _, _, _]
  | [_, _, _, _, _, _] | [_, _, _, _, _, _, _] | [_, _, _, _, _, _, _, _]
  | [_, _, _, _, _, _, _, _, _] | _ :: _ :: _ :: _ :: _ :: _ :: _ :: _ :: _ :: _ :: _ :: _ =>
      exact absurd h (by simp [isoParseL])

theorem parse_iso_date_valid {v : Option JVal} {d : PyDate}
    (h : parse_iso_date v = some d) : d.Valid := by
  match v with
  | some (.str s) =>
      unfold parse_iso_date at h
      dsimp only at h
      split_ifs at h
      exact isoParseL_valid h
  | none | some .null | some (.bool _) | some (.num _) | some (.arr _) | some (.obj _) =>
      exact absurd h (by simp [parse_iso_date])

/-! ### `decimal.Decimal`

A decimal is a sign, a coefficient and an exponent, with the special values
NaN and signed infinity.  Arithmetic follows Python's default context: results
are rounded to 28 significant digits with round-half-even.  The context's
exponent limits (`Emax = 999999`) and its traps (`InvalidOperation` on
`Infinity * 0`, on signalling NaN operands and on `Overflow`) are not
modelled — the arithmetic here is total, and the claims' statements stay on
inputs where Python's arithmetic returns. -/

inductive Dec : Type where
  | fin : Bool → Nat → Int → Dec
  | inf : Bool → Dec
  | nan : Dec
deriving DecidableEq

/-- Default context precision (`decimal.getcontext().prec`). -/
def prec : Nat := 28

/-- Number of decimal digits of a coefficient (`len(digits)` of the tuple). -/
def numDigits (c : Nat) : Nat :=
  if c = 0 then 1 else (natDigitsRev c).length

/-- Drop the last `k` digits of `c`, rounding half-to-even. -/
def roundHalfEven (c k : Nat) : Nat :=
  if 2 * (c % 10 ^ k) > 10 ^ k then c / 10 ^ k + 1
  else if 2 * (c % 10 ^ k) < 10 ^ k then c / 10 ^ k
  else if (c / 10 ^ k) % 2 = 1 then c / 10 ^ k + 1 else c / 10 ^ k

/-- Round a coefficient/exponent pair to the context precision (`_fix`). -/
def fixPrec (c : Nat) (e : Int) : Nat × Int :=
  if numDigits c ≤ prec then (c, e)
  else if numDigits (roundHalfEven c (numDigits c - prec)) ≤ prec then
    (roundHalfEven c (numDigits c - prec), e + (numDigits c - prec))
  else (roundHalfEven c (numDigits c - prec) / 10, e + (numDigits c - prec + 1))

/-- Decimal multiplication under the default context. -/
def dmul : Dec → Dec → Dec
  | .nan, _ => .nan
  | _, .nan => .nan
  | .inf s, .inf t => .inf (xor s t)
  | .inf s, .fin t c _ => if c = 0 then .nan else .inf (xor s t)
  | .fin t c _, .inf s => if c = 0 then .nan else .inf (xor t s)
  | .fin s1 c1 e1, .fin s2 c2 e2 =>
      .fin (xor s1 s2) (fixPrec (c1 * c2) (e1 + e2)).1 (fixPrec (c1 * c2) (e1 + e2)).2

/-- The exact integer value of an aligned two-operand sum (the coefficients
shifted onto the smaller exponent). -/
def addSumInt (s1 : Bool) (c1 : Nat) (e1 : Int) (s2 : Bool) (c2 : Nat) (e2 : Int) : Int :=
  (cond s1 (-(c1 : Int)) (c1 : Int)) * 10 ^ (e1 - min e1 e2).toNat +
    (cond s2 (-(c2 : Int)) (c2 : Int)) * 10 ^ (e2 - min e1 e2).toNat

/-- Decimal addition under the default context (an exact zero sum is positive
unless both operands are negative, per round-half-even contexts). -/
def dadd : Dec → Dec → Dec
  | .nan, _ => .nan
  | _, .nan => .nan
  | .inf s, .inf t => if s = t then .inf s else .nan
  | .inf s, .fin _ _ _ => .inf s
  | .fin _ _ _, .inf s => .inf s
  | .fin s1 c1 e1, .fin s2 c2 e2 =>
      if addSumInt s1 c1 e1 s2 c2 e2 = 0 then .fin (s1 && s2) 0 (min e1 e2)
      else
        .fin (decide (addSumInt s1 c1 e1 s2 c2 e2 < 0))
          (fixPrec (addSumInt s1 c1 e1 s2 c2 e2).natAbs (min e1 e2)).1
          (fixPrec (addSumInt s1 c1 e1 s2 c2 e2).natAbs (min e1 e2)).2

/-- Strip trailing zero digits, raising the exponent; the fuel keeps the
recursion structural and is irrelevant once it is at least the coefficient. -/
def stripTrailingZerosF : Nat → Nat → Int → Nat × Int
  | 0, c, e => (c, e)
  | f + 1, c, e =>
      if c ≠ 0 ∧ c % 10 = 0 then stripTrailingZerosF f (c / 10) (e + 1) else (c, e)

def stripTrailingZeros (c : Nat) (e : Int) : Nat × Int := stripTrailingZerosF c c e

theorem stripTrailingZerosF_congr : ∀ (c f g : Nat) (e : Int), c ≤ f → c ≤ g →
    stripTrailingZerosF f c e = stripTrailingZerosF g c e := by
  intro c
  induction c using Nat.strong_induction_on with
  | _ c ih =>
      intro f g e hf hg
      match f, g with
      | 0, 0 => rfl
      | 0, g + 1 =>
          have hc : c = 0 := by omega
          subst hc
          simp [stripTrailingZerosF]
      | f + 1, 0 =>
          have hc : c = 0 := by omega
          subst hc
          simp [stripTrailingZerosF]
      | f + 1, g + 1 =>
          show (if c ≠ 0 ∧ c % 10 = 0 then stripTrailingZerosF f (c / 10) (e + 1)
              else (c, e)) =
            (if c ≠ 0 ∧ c % 10 = 0 then stripTrailingZerosF g (c / 10) (e + 1)
              else (c, e))
          split_ifs with h
          · obtain ⟨h1, h2⟩ := h
            exact ih (c / 10) (by omega) f g (e + 1) (by omega) (by omega)
          · rfl

theorem stripTrailingZeros_unfold (c : Nat) (e : Int) :
    stripTrailingZeros c e =
      if c ≠ 0 ∧ c % 10 = 0 then stripTrailingZeros (c / 10) (e + 1) else (c, e) := by
  unfold stripTrailingZeros
  match c with
  | 0 => simp [stripTrailingZerosF]
  | m + 1 =>
      show (if m + 1 ≠ 0 ∧ (m + 1) % 10 = 0 then stripTrailingZerosF m ((m + 1) / 10) (e + 1)
          else (m + 1, e)) = _
      split_ifs with h
      · exact stripTrailingZerosF_congr ((m + 1) / 10) m ((m + 1) / 10) (e + 1)
          (by omega) (le_refl _)
      · rfl

/-- `Decimal.normalize()`: round to context precision, then strip trailing
zeros; a zero gets exponent 0. -/
def dnormalize : Dec → Dec
  | .fin s c e =>
      if c = 0 then .fin s 0 0
      else
        .fin s (stripTrailingZeros (fixPrec c e).1 (fixPrec c e).2).1
          (stripTrailingZeros (fixPrec c e).1 (fixPrec c e).2).2
  | d => d

def decSignStr (s : Bool) : List Char := if s then ['-'] else []

/-- `format(d, "f")`: fixed-point form, never scientific. -/
def formatFL : Dec → List Char
  | .nan => ['N', 'a', 'N']
  | .inf s => decSignStr s ++ "Infinity".data
  | .fin s c e =>
      decSignStr s ++
        (if 0 ≤ e then natDigits c ++ List.replicate e.toNat '0'
         else if (-e).toNat < (natDigits c).length then
           (natDigits c).take ((natDigits c).length - (-e).toNat) ++
             '.' :: (natDigits c).drop ((natDigits c).length - (-e).toNat)
         else '0' :: '.' ::
           (List.replicate ((-e).toNat - (natDigits c).length) '0' ++ natDigits c))

/-- `fmt_decimal` of the source: `format(d.normalize(), "f")`, then strip
trailing zeros and a trailing point when a point is present (`"." in s`). -/
def fmt_decimal (d : Dec) : String :=
  if (formatFL (dnormalize d)).contains '.' then
    String.mk (rstripL (rstripL (formatFL (dnormalize d)) '0') '.')
  else String.mk (formatFL (dnormalize d))

/-! ### The decimal string parser (`Decimal(str)`)

The grammar: optional sign, then either a digit string with an optional
fractional part and an optional exponent, or one of the specials
`inf`/`infinity`/`nan`/`snan` (case-insensitive; a signalling NaN is collapsed
onto quiet NaN, Python only distinguishes them when operating on them).
PEP 515 underscore grouping and non-ASCII digits are not modelled. -/

def digitsVal (l : List Char) : Nat :=
  l.foldl (fun a c => 10 * a + digitVal c) 0

def toLowerL (l : List Char) : List Char := l.map Char.toLower

def parseSpecial (s : Bool) (l : List Char) : Option Dec :=
  let low := toLowerL l
  if low = "inf".data ∨ low = "infinity".data then some (.inf s)
  else
    match low with
    | 'n' :: 'a' :: 'n' :: rest => if rest.all Char.isDigit then some .nan else none
    | 's' :: 'n' :: 'a' :: 'n' :: rest => if rest.all Char.isDigit then some .nan else none
    | _ => none

def parseExpTail : List Char → Option Int
  | [] => some 0
  | c :: rest =>
      if c = 'e' ∨ c = 'E' then
        match rest with
        | '+' :: ds => if ds ≠ [] ∧ ds.all Char.isDigit then some (digitsVal ds) else none
        | '-' :: ds =>
            if ds ≠ [] ∧ ds.all Char.isDigit then some (-(digitsVal ds : Int)) else none
        | ds => if ds ≠ [] ∧ ds.all Char.isDigit then some (digitsVal ds) else none
      else none

def parseCoeff (l : List Char) : Option (Nat × Int × List Char) :=
  let d1 := l.takeWhile Char.isDigit
  let r1 := l.dropWhile Char.isDigit
  match r1 with
  | '.' :: r2 =>
      let d2 := r2.takeWhile Char.isDigit
      let r3 := r2.dropWhile Char.isDigit
      if d1.isEmpty && d2.isEmpty then none
      else some (digitsVal (d1 ++ d2), -(d2.length : Int), r3)
  | _ => if d1.isEmpty then none else some (digitsVal d1, 0, r1)

def parseDecL (l : List Char) : Option Dec :=
  let sb : Bool × List Char :=
    match l with
    | '+' :: rest => (false, rest)
    | '-' :: rest => (true, rest)
    | _ => (false, l)
  match parseSpecial sb.1 sb.2 with
  | some d => some d
  | none =>
      match parseCoeff sb.2 with
      | none => none
      | some (c, e0, rest) =>
          match parseExpTail rest with
          | none => none
          | some ex => some (.fin sb.1 c (e0 + ex))

/-- `to_decimal` of the source.  `None` and containers give `None`; a bool is
numeric for `isinstance` but `Decimal(str(True))` raises and is caught; an int
converts exactly; a string is stripped and parsed. -/
def to_decimal (v : Option JVal) : Option Dec :=
  match v with
  | none => none
  | some .null => none
  | some (.bool _) => none
  | some (.num n) => some (.fin (decide (n < 0)) n.natAbs 0)
  | some (.str s) =>
      let t := pyStrip s
      if t = "" then none else parseDecL t.data
  | some (.arr _) => none
  | some (.obj _) => none

/-- `compute_amount` of the source. -/
def compute_amount (row : List (String × JVal)) : String :=
  match to_decimal (aget row "freight"), to_decimal (aget row "settleTons") with
  | some f, some s => fmt_decimal (dmul f s)
  | _, _ => ""

/-- The exact rational value of a finite decimal (0 for the specials, which
have none). -/
def Dec.toRat : Dec → ℚ
  | .fin s c e => (cond s (-1) 1) * (c : ℚ) * 10 ^ e
  | _ => 0

/-! ### The storage layer (`src/storage.py`)

Python dicts are the association lists above (`Obj`).  The filesystem is an
association list from file names to contents that either parsed as JSON or
are malformed (file-reading exceptions become the `aget`/`FileData` cases).
`_write_json_atomic`'s temp-file-and-rename dance has the net effect of a
single keyed write.  The `uuid`-based `_new_id` and the clock are passed in as
the `gen`/`now`/`today` parameters. -/

abbrev Obj := List (String × JVal)

inductive FileData : Type where
  | json : JVal → FileData
  | malformed : FileData

abbrev FS := List (String × FileData)

/-- `_read_json`: the parsed value, or the default on `FileNotFoundError`
(absent key) or any parse failure (malformed contents). -/
def read_json (fs : FS) (path : String) (dflt : JVal) : JVal :=
  match aget fs path with
  | none => dflt
  | some .malformed => dflt
  | some (.json v) => v

/-- `_write_json_atomic` (net effect on the directory). -/
def write_json_atomic (fs : FS) (path : String) (v : JVal) : FS :=
  aset fs path (.json v)

def loadPlacesDefault : JVal := .arr [.str "装车地A", .str "装车地B", .str "装车地C"]

def unloadPlacesDefault : JVal := .arr [.str "卸货地A", .str "卸货地B", .str "卸货地C"]

def default_config (now : String) : Obj :=
  [("recentTableIds", .arr []),
   ("recentLimit", .num 12),
   ("autosaveMs", .num 600),
   ("initialRows", .num 31),
   ("defaultVehicle", .str "蒙J87721"),
   ("defaultModel", .str "PAC"),
   ("loadPlaces", loadPlacesDefault),
   ("unloadPlaces", unloadPlacesDefault),
   ("updatedAt", .str now)]

def setdefaults (m : Obj) : Obj → Obj
  | [] => m
  | (k, v) :: rest => setdefaults (asetdefault m k v) rest

def isListV : Option JVal → Bool
  | some (.arr _) => true
  | _ => false

/-- The stored config document resolved to a dict (`default_config()` when the
file is unreadable or not a JSON object). -/
def configDocOf (fs : FS) (now : String) : Obj :=
  match read_json fs "config.json" (.obj (default_config now)) with
  | .obj m => m
  | _ => default_config now

/-- One wrong-type repair of `load_config`: replace the value at `k` when it
is not a list. -/
def fixListKey (m : Obj) (k : String) (d : JVal) : Obj :=
  if !isListV (aget m k) then aset m k d else m

/-- `load_config`: backfill every missing default key, then repair the three
list-valued keys when their stored values are not lists. -/
def load_config (fs : FS) (now : String) : Obj :=
  fixListKey
    (fixListKey
      (fixListKey (setdefaults (configDocOf fs now) (default_config now))
        "recentTableIds" (.arr []))
      "loadPlaces" loadPlacesDefault)
    "unloadPlaces" unloadPlacesDefault

/-- Python `int(x)` (`None` models the `TypeError`/`ValueError` it raises;
PEP 515 underscore grouping is not modelled). -/
def parseIntStr (s : String) : Option Int :=
  match stripL s.data with
  | '+' :: ds => if ds ≠ [] ∧ ds.all Char.isDigit then some (digitsVal ds) else none
  | '-' :: ds => if ds ≠ [] ∧ ds.all Char.isDigit then some (-(digitsVal ds : Int)) else none
  | ds => if ds ≠ [] ∧ ds.all Char.isDigit then some (digitsVal ds) else none

def pyToInt : JVal → Option Int
  | .bool b => some (cond b 1 0)
  | .num n => some n
  | .str s => parseIntStr s
  | _ => none

/-- Python iteration (`for x in v`): lists yield elements, strings their
characters, dicts their keys; scalars raise `TypeError`. -/
def pyIter : JVal → Option (List JVal)
  | .arr l => some l
  | .str s => some (s.data.map fun c => .str (String.mk [c]))
  | .obj fs => some (fs.map fun kv => .str kv.1)
  | _ => none

/-- Python `x == s` against a string: only equal strings compare equal. -/
def pyEqJS : JVal → String → Bool
  | .str t, s => t == s
  | _, _ => false

/-- `touch_recent`.  The comprehension raises `TypeError` on a non-iterable
`recentTableIds`, and `int()` raises on a non-numeric truthy `recentLimit`. -/
def touch_recent (cfg : Obj) (tableId : String) : Except String Obj :=
  match pyIter (match aget cfg "recentTableIds" with | some v => v | none => .arr []) with
  | none => .error "TypeError: recentTableIds object is not iterable"
  | some xs =>
      match pyToInt (pyOr (aget cfg "recentLimit") (.num 12)) with
      | none => .error "ValueError: invalid literal for int()"
      | some lim =>
          .ok (aset cfg "recentTableIds"
            (.arr ((JVal.str tableId :: xs.filter (fun x => !(pyEqJS x tableId))).take
              (max 1 lim).toNat)))

/-- `load_table_by_id`. -/
def load_table_by_id (fs : FS) (tableId : String) : Option Obj :=
  match read_json fs (tableId ++ ".json") .null with
  | .obj m => some m
  | _ => none

/-- `save_table` (the source's error text is the Chinese validation message). -/
def save_table (fs : FS) (now : String) (table : Obj) : Except String FS :=
  if pyStrip (strOr (aget table "id")) = "" then .error "table.id 不能为空"
  else .ok (write_json_atomic fs (pyStrip (strOr (aget table "id")) ++ ".json")
    (.obj (aset table "updatedAt" (.str now))))

/-- One conditional assignment of `ensure_row_defaults`:
`if not str(r.get(k) or "").strip(): r[k] = d`. -/
def fixField (row : Obj) (k : String) (d : String) : Obj :=
  if pyStrip (strOr (aget row k)) = "" then aset row k (.str d) else row

/-- `ensure_row_defaults`: default the vehicle, then the model. -/
def ensure_row_defaults (cfg : Obj) (row : Obj) : Obj :=
  fixField (fixField row "vehicle" (strOr (aget cfg "defaultVehicle")))
    "model" (strOr (aget cfg "defaultModel"))

/-- The fresh-row literal of `ensure_rows_from_start_date`. -/
def baseRow (cfg : Obj) (rid : String) (d : PyDate) : Obj :=
  [("id", .str rid),
   ("loadDate", .str d.toIso),
   ("loadPlace", .str ""),
   ("vehicle", .str (strOr (aget cfg "defaultVehicle"))),
   ("model", .str (strOr (aget cfg "defaultModel"))),
   ("loadNetWeight", .str ""),
   ("unloadDate", .str ""),
   ("unloadPlace", .str ""),
   ("unloadTons", .str ""),
   ("freight", .str ""),
   ("settleTons", .str ""),
   ("amount", .str "")]

/-- `ensure_rows_from_start_date` (`gen i` is the `_new_id("row")` of the
`i`-th row). -/
def ensure_rows_from_start_date (cfg : Obj) (gen : Nat → String) (today : PyDate)
    (startDateIso : String) (rowCount : Int) : List JVal :=
  (List.range (max 1 rowCount).toNat).map
    (fun i => .obj (ensure_row_defaults cfg (baseRow cfg (gen i)
      (addDays ((parse_iso_date (some (.str startDateIso))).getD today) i))))

/-- The `rows` list a table resolves to (`t.get("rows", [])` guarded by
`isinstance(..., list)`). -/
def rowsInOf (t : Obj) : List JVal :=
  match aget t "rows" with
  | some (.arr l) => l
  | _ => []

/-- The `meta` dict a table resolves to. -/
def metaOf (t : Obj) : Obj :=
  match aget t "meta" with
  | some (.obj m) => m
  | _ => []

/-- The start-date string `normalize_table` resolves: `meta.startDate`, else
`table.startDate`, else today. -/
def startIsoOf (today : PyDate) (t : Obj) : String :=
  if pyStrip (strOr (aget (metaOf t) "startDate")) ≠ "" then
    pyStrip (strOr (aget (metaOf t) "startDate"))
  else if pyStrip (strOr (aget t "startDate")) ≠ "" then
    pyStrip (strOr (aget t "startDate"))
  else today.toIso

def resolveStart (today : PyDate) (t : Obj) : PyDate :=
  (parse_iso_date (some (.str (startIsoOf today t)))).getD today

/-- The state of a row in `normalize_table`'s loop just before the amount is
recomputed: defaulted id, row defaults applied, load date forced. -/
def rowStepPre (cfg : Obj) (rid : String) (d : PyDate) (rr : Obj) : Obj :=
  aset (ensure_row_defaults cfg (asetdefault rr "id" (.str rid)))
    "loadDate" (.str d.toIso)

/-- The per-row body of `normalize_table`'s loop: default the id, apply the
row defaults, force the load date, recompute the amount. -/
def rowStep (cfg : Obj) (rid : String) (d : PyDate) (rr : Obj) : Obj :=
  aset (rowStepPre cfg rid d rr) "amount" (.str (compute_amount (rowStepPre cfg rid d rr)))

/-- `normalize_table`'s loop: `i` is the `enumerate` index, which advances
past dropped non-dict entries as well. -/
def normRows (cfg : Obj) (gen : Nat → String) (start : PyDate) :
    Nat → List JVal → List JVal
  | _, [] => []
  | i, .obj f :: rest =>
      .obj (rowStep cfg (gen i) (addDays start i) f) :: normRows cfg gen start (i + 1) rest
  | i, .null :: rest => normRows cfg gen start (i + 1) rest
  | i, .bool _ :: rest => normRows cfg gen start (i + 1) rest
  | i, .num _ :: rest => normRows cfg gen start (i + 1) rest
  | i, .str _ :: rest => normRows cfg gen start (i + 1) rest
  | i, .arr _ :: rest => normRows cfg gen start (i + 1) rest

/-- `normalize_table`. -/
def normalize_table (cfg : Obj) (gen : Nat → String) (today : PyDate) (table : Obj) :
    Obj :=
  aset
    (aset (aset table "rows"
        (.arr (normRows cfg gen (resolveStart today table) 0 (rowsInOf table))))
      "startDate" (.str (resolveStart today table).toIso))
    "meta" (.obj (aset (metaOf table) "startDate" (.str (resolveStart today table).toIso)))

def FIXED_HEADERS : List (String × String) :=
  [("loadDate", "装车日期"),
   ("loadPlace", "装车地"),
   ("vehicle", "车辆"),
   ("model", "产品型号"),
   ("loadNetWeight", "装车净重"),
   ("unloadDate", "卸车日期"),
   ("unloadPlace", "卸货地"),
   ("unloadTons", "卸车数（吨）"),
   ("freight", "运费"),
   ("settleTons", "结算吨数"),
   ("amount", "金额")]

/-- The effective start-date string of `create_table`:
`(start_date_iso or "").strip() or today_iso()`. -/
def createStartIso (today : PyDate) (s0 : String) : String :=
  if pyStrip s0 ≠ "" then pyStrip s0 else today.toIso

/-- The table literal `create_table` builds before normalizing. -/
def createTableLit (cfg : Obj) (gen : Nat → String) (tblId : String) (now : String)
    (today : PyDate) (sIso : String) (initialRows : Int) : Obj :=
  [("id", .str tblId),
   ("name", .str (sIso ++ "-")),
   ("startDate", .str sIso),
   ("columns", .arr (FIXED_HEADERS.map
      (fun kv => .obj [("key", .str kv.1), ("label", .str kv.2)]))),
   ("rows", .arr (ensure_rows_from_start_date cfg gen today sIso initialRows)),
   ("createdAt", .str now),
   ("updatedAt", .str now),
   ("meta", .obj [("startDate", .str sIso), ("initialRows", .num initialRows)])]

/-- `create_table` (`tblId` is the generated `_new_id("tbl")`, `now` the
clock reading for the two `now_iso()` calls). -/
def create_table (cfg : Obj) (gen : Nat → String) (tblId : String) (now : String)
    (today : PyDate) (startDateIso0 : String) (initialRows : Int) : Obj :=
  normalize_table cfg gen today
    (createTableLit cfg gen tblId now today (createStartIso today startDateIso0)
      initialRows)

/-- The body of `summarize_table`'s total loop: skip non-dict rows and
unparsable amounts, add parseable amounts to the running total. -/
def addAmount (tot : Dec) (r : JVal) : Dec :=
  match r with
  | .obj f =>
      match to_decimal (aget f "amount") with
      | some a => dadd tot a
      | none => tot
  | _ => tot

/-- `summarize_table`'s total: `Decimal("0")`, plus every parseable amount of
every dict row. -/
def sumAmounts (rows : List JVal) : Dec :=
  rows.foldl addAmount (.fin false 0 0)

/-- The summary's start-date string: the (normalized) table's `startDate`,
else today. -/
def sumStartIso (today : PyDate) (t : Obj) : String :=
  if pyStrip (strOr (aget t "startDate")) ≠ "" then pyStrip (strOr (aget t "startDate"))
  else today.toIso

/-- The summary's end-date string: the last row's `loadDate` when the row list
is non-empty and its last element is a dict, else empty. -/
def sumEndIso (rows : List JVal) : String :=
  match rows.getLast? with
  | some (.obj last) => pyStrip (strOr (aget last "loadDate"))
  | _ => ""

/-- The derived table name `"{start}-{end}"` / `"{start}-"`. -/
def sumName (today : PyDate) (t : Obj) : String :=
  if sumEndIso (rowsInOf t) ≠ "" then
    sumStartIso today t ++ "-" ++ sumEndIso (rowsInOf t)
  else sumStartIso today t ++ "-"

/-- `summarize_table`. -/
def summarize_table (cfg : Obj) (gen : Nat → String) (today : PyDate) (table : Obj) :
    Obj × Dec :=
  (aset (normalize_table cfg gen today table) "name"
      (.str (sumName today (normalize_table cfg gen today table))),
   sumAmounts (rowsInOf (normalize_table cfg gen today table)))

/-! ### Row-level lemmas -/

theorem fixField_frame (row : Obj) (k d : String) {k' : String} (h : k ≠ k') :
    aget (fixField row k d) k' = aget row k' := by
  unfold fixField
  split_ifs with hb
  · exact aget_aset_ne row k k' _ h
  · rfl

/-- A row that carries a possible output value of `fixField` at `k` is left
alone by `fixField` at `k`. -/
theorem fixField_stable {row r' : Obj} {k d : String}
    (h : aget r' k = aget (fixField row k d) k) : fixField r' k d = r' := by
  unfold fixField at h ⊢
  split_ifs at h with hb
  · rw [aget_aset_self] at h
    have hs : strOr (aget r' k) = d := by rw [h, strOr_str]
    split_ifs with hb'
    · exact aset_same r' k _ (by rw [h])
    · rfl
  · rw [if_neg (by rw [h]; exact hb)]

theorem fixField_idem (row : Obj) (k d : String) :
    fixField (fixField row k d) k d = fixField row k d :=
  fixField_stable rfl

theorem ensure_row_defaults_frame (cfg row : Obj) {k : String}
    (hv : k ≠ "vehicle") (hm : k ≠ "model") :
    aget (ensure_row_defaults cfg row) k = aget row k := by
  unfold ensure_row_defaults
  rw [fixField_frame _ _ _ (fun h => hm h.symm), fixField_frame _ _ _ (fun h => hv h.symm)]

theorem ensure_row_defaults_idem (cfg row : Obj) :
    ensure_row_defaults cfg (ensure_row_defaults cfg row) = ensure_row_defaults cfg row := by
  unfold ensure_row_defaults
  set dv := strOr (aget cfg "defaultVehicle")
  set dm := strOr (aget cfg "defaultModel")
  set a := fixField row "vehicle" dv with ha
  set b := fixField a "model" dm with hb
  have hv : fixField b "vehicle" dv = b :=
    fixField_stable (by rw [hb, fixField_frame a "model" dm (by decide)])
  rw [hv]
  exact fixField_stable (by rw [hb])

/-- A row whose `vehicle` is not blank keeps it. -/
theorem ensure_row_defaults_vehicle (cfg row : Obj)
    (h : pyStrip (strOr (aget row "vehicle")) ≠ "") :
    aget (ensure_row_defaults cfg row) "vehicle" = aget row "vehicle" := by
  unfold ensure_row_defaults
  rw [fixField_frame _ "model" _ (by decide)]
  unfold fixField
  rw [if_neg h]

/-- A row whose `model` is not blank keeps it. -/
theorem ensure_row_defaults_model (cfg row : Obj)
    (h : pyStrip (strOr (aget row "model")) ≠ "") :
    aget (ensure_row_defaults cfg row) "model" = aget row "model" := by
  unfold ensure_row_defaults
  set y := fixField row "vehicle" (strOr (aget cfg "defaultVehicle")) with hy
  have hm : aget y "model" = aget row "model" := by
    rw [hy]
    exact fixField_frame row "vehicle" _ (by decide)
  unfold fixField
  rw [hm, if_neg h]
  exact hm

theorem compute_amount_congr {a b : Obj}
    (h1 : aget a "freight" = aget b "freight")
    (h2 : aget a "settleTons" = aget b "settleTons") :
    compute_amount a = compute_amount b := by
  unfold compute_amount
  rw [h1, h2]

theorem containsKey_asetdefault_self {α : Type} (m : List (String × α)) (k : String)
    (v : α) : containsKey (asetdefault m k v) k = true := by
  unfold asetdefault
  split_ifs with h
  · exact h
  · exact containsKey_of_aget (aget_aset_self m k v)

theorem asetdefault_of_contains {α : Type} {m : List (String × α)} {k : String}
    (v : α) (h : containsKey m k = true) : asetdefault m k v = m := by
  simp [asetdefault, h]

/-- The keys `rowStep` may touch. -/
def rowKeys : List String := ["id", "vehicle", "model", "loadDate", "amount"]

theorem rowStepPre_frame (cfg : Obj) (rid : String) (d : PyDate) (f : Obj) {k : String}
    (hid : k ≠ "id") (hv : k ≠ "vehicle") (hm : k ≠ "model") (hl : k ≠ "loadDate") :
    aget (rowStepPre cfg rid d f) k = aget f k := by
  unfold rowStepPre
  rw [aget_aset_ne _ _ _ _ (fun he => hl he.symm),
    ensure_row_defaults_frame _ _ hv hm,
    aget_asetdefault_ne _ _ _ _ (fun he => hid he.symm)]

theorem rowStep_frame (cfg : Obj) (rid : String) (d : PyDate) (f : Obj) {k : String}
    (h : ¬ k ∈ rowKeys) :
    aget (rowStep cfg rid d f) k = aget f k := by
  simp only [rowKeys, List.mem_cons, List.not_mem_nil, or_false, not_or] at h
  obtain ⟨hid, hv, hm, hl, ha⟩ := h
  unfold rowStep
  rw [aget_aset_ne _ _ _ _ (fun he => ha he.symm),
    rowStepPre_frame cfg rid d f hid hv hm hl]

theorem rowStep_loadDate (cfg : Obj) (rid : String) (d : PyDate) (f : Obj) :
    aget (rowStep cfg rid d f) "loadDate" = some (.str d.toIso) := by
  unfold rowStep rowStepPre
  rw [aget_aset_ne _ _ _ _ (by decide), aget_aset_self]

theorem rowStepPre_freight (cfg : Obj) (rid : String) (d : PyDate) (f : Obj) :
    aget (rowStepPre cfg rid d f) "freight" = aget f "freight" :=
  rowStepPre_frame cfg rid d f (by decide) (by decide) (by decide) (by decide)

theorem rowStepPre_settle (cfg : Obj) (rid : String) (d : PyDate) (f : Obj) :
    aget (rowStepPre cfg rid d f) "settleTons" = aget f "settleTons" :=
  rowStepPre_frame cfg rid d f (by decide) (by decide) (by decide) (by decide)

theorem rowStep_amount (cfg : Obj) (rid : String) (d : PyDate) (f : Obj) :
    aget (rowStep cfg rid d f) "amount" = some (.str (compute_amount f)) := by
  unfold rowStep
  rw [aget_aset_self]
  exact congrArg (fun s => some (JVal.str s))
    (compute_amount_congr (rowStepPre_freight ..) (rowStepPre_settle ..))

theorem rowStep_id_of_present (cfg : Obj) (rid : String) (d : PyDate) {f : Obj}
    {v : JVal} (h : aget f "id" = some v) :
    aget (rowStep cfg rid d f) "id" = some v := by
  unfold rowStep rowStepPre
  rw [aget_aset_ne _ _ _ _ (by decide), aget_aset_ne _ _ _ _ (by decide),
    ensure_row_defaults_frame _ _ (by decide) (by decide),
    aget_asetdefault_of_contains _ h, h]

theorem rowStep_id_of_absent (cfg : Obj) (rid : String) (d : PyDate) {f : Obj}
    (h : aget f "id" = none) :
    aget (rowStep cfg rid d f) "id" = some (.str rid) := by
  unfold rowStep rowStepPre
  rw [aget_aset_ne _ _ _ _ (by decide), aget_aset_ne _ _ _ _ (by decide),
    ensure_row_defaults_frame _ _ (by decide) (by decide),
    aget_asetdefault_of_absent _ h, aget_aset_self]

theorem rowStep_vehicle (cfg : Obj) (rid : String) (d : PyDate) (f : Obj)
    (h : pyStrip (strOr (aget f "vehicle")) ≠ "") :
    aget (rowStep cfg rid d f) "vehicle" = aget f "vehicle" := by
  unfold rowStep rowStepPre
  rw [aget_aset_ne _ _ _ _ (by decide), aget_aset_ne _ _ _ _ (by decide)]
  have h1 : aget (asetdefault f "id" (.str rid)) "vehicle" = aget f "vehicle" :=
    aget_asetdefault_ne _ _ _ _ (by decide)
  rw [ensure_row_defaults_vehicle _ _ (by rw [h1]; exact h), h1]

theorem rowStep_model (cfg : Obj) (rid : String) (d : PyDate) (f : Obj)
    (h : pyStrip (strOr (aget f "model")) ≠ "") :
    aget (rowStep cfg rid d f) "model" = aget f "model" := by
  unfold rowStep rowStepPre
  rw [aget_aset_ne _ _ _ _ (by decide), aget_aset_ne _ _ _ _ (by decide)]
  have h1 : aget (asetdefault f "id" (.str rid)) "model" = aget f "model" :=
    aget_asetdefault_ne _ _ _ _ (by decide)
  rw [ensure_row_defaults_model _ _ (by rw [h1]; exact h), h1]

theorem rowStep_vehicle_raw (cfg : Obj) (rid : String) (d : PyDate) (f : Obj) :
    aget (rowStep cfg rid d f) "vehicle" =
      aget (fixField (asetdefault f "id" (.str rid)) "vehicle"
        (strOr (aget cfg "defaultVehicle"))) "vehicle" := by
  unfold rowStep rowStepPre ensure_row_defaults
  rw [aget_aset_ne _ _ _ _ (by decide), aget_aset_ne _ _ _ _ (by decide),
    fixField_frame _ _ _ (by decide)]

theorem rowStep_model_raw (cfg : Obj) (rid : String) (d : PyDate) (f : Obj) :
    aget (rowStep cfg rid d f) "model" =
      aget (fixField (fixField (asetdefault f "id" (.str rid)) "vehicle"
        (strOr (aget cfg "defaultVehicle"))) "model"
        (strOr (aget cfg "defaultModel"))) "model" := by
  unfold rowStep rowStepPre ensure_row_defaults
  rw [aget_aset_ne _ _ _ _ (by decide), aget_aset_ne _ _ _ _ (by decide)]

/-- A second pass of the per-row step changes nothing (whatever id is fed). -/
theorem rowStep_idem (cfg : Obj) (rid1 rid2 : String) (d : PyDate) (f : Obj) :
    rowStep cfg rid2 d (rowStep cfg rid1 d f) = rowStep cfg rid1 d f := by
  have hid : containsKey (rowStep cfg rid1 d f) "id" = true := by
    unfold containsKey
    cases h : aget f "id" with
    | some v => rw [rowStep_id_of_present cfg rid1 d h]; rfl
    | none => rw [rowStep_id_of_absent cfg rid1 d h]; rfl
  have herd : ensure_row_defaults cfg (rowStep cfg rid1 d f) = rowStep cfg rid1 d f := by
    unfold ensure_row_defaults
    rw [fixField_stable (rowStep_vehicle_raw cfg rid1 d f)]
    exact fixField_stable (rowStep_model_raw cfg rid1 d f)
  have hpre : rowStepPre cfg rid2 d (rowStep cfg rid1 d f) = rowStep cfg rid1 d f := by
    unfold rowStepPre
    rw [asetdefault_of_contains _ hid, herd]
    exact aset_same _ _ _ (rowStep_loadDate cfg rid1 d f)
  have hstep : rowStep cfg rid2 d (rowStep cfg rid1 d f) =
      aset (rowStepPre cfg rid2 d (rowStep cfg rid1 d f)) "amount"
        (.str (compute_amount (rowStepPre cfg rid2 d (rowStep cfg rid1 d f)))) := rfl
  rw [hstep, hpre]
  apply aset_same
  rw [rowStep_amount]
  exact congrArg (fun s => some (JVal.str s))
    (compute_amount_congr ((rowStep_frame cfg rid1 d f (by decide)).symm)
      ((rowStep_frame cfg rid1 d f (by decide)).symm))

/-! ### `normRows` lemmas -/

/-- Every output row is a dict whose `loadDate` is some date's ISO string. -/
theorem normRows_mem (cfg : Obj) (gen : Nat → String) (start : PyDate) :
    ∀ (l : List JVal) (i : Nat) (r : JVal), r ∈ normRows cfg gen start i l →
      ∃ g, r = .obj g ∧ ∃ dd : PyDate, aget g "loadDate" = some (.str dd.toIso) := by
  intro l
  induction l with
  | nil => intro i r hr; simp [normRows] at hr
  | cons hd tl ih =>
      intro i r hr
      match hd with
      | .obj f =>
          rw [normRows] at hr
          rcases List.mem_cons.mp hr with rfl | hr
          · exact ⟨_, rfl, addDays start i, rowStep_loadDate ..⟩
          · exact ih (i + 1) r hr
      | .null => rw [normRows] at hr; exact ih (i + 1) r hr
      | .bool b => rw [normRows] at hr; exact ih (i + 1) r hr
      | .num n => rw [normRows] at hr; exact ih (i + 1) r hr
      | .str s => rw [normRows] at hr; exact ih (i + 1) r hr
      | .arr a => rw [normRows] at hr; exact ih (i + 1) r hr

theorem normRows_length (cfg : Obj) (gen : Nat → String) (start : PyDate) :
    ∀ (l : List JVal) (i : Nat), (∀ r ∈ l, ∃ f, r = .obj f) →
      (normRows cfg gen start i l).length = l.length := by
  intro l
  induction l with
  | nil => intro i _; rfl
  | cons hd tl ih =>
      intro i hobj
      obtain ⟨f, rfl⟩ := hobj hd (by simp)
      rw [normRows]
      simp only [List.length_cons]
      rw [ih (i + 1) (fun r hr => hobj r (by simp [hr]))]

theorem normRows_getElem (cfg : Obj) (gen : Nat → String) (start : PyDate) :
    ∀ (l : List JVal) (i j : Nat), (∀ r ∈ l, ∃ f, r = .obj f) → j < l.length →
      ∃ f, l[j]? = some (.obj f) ∧
        (normRows cfg gen start i l)[j]? =
          some (.obj (rowStep cfg (gen (i + j)) (addDays start (i + j)) f)) := by
  intro l
  induction l with
  | nil => intro i j _ hj; simp at hj
  | cons hd tl ih =>
      intro i j hobj hj
      obtain ⟨f, rfl⟩ := hobj hd (List.mem_cons_self hd tl)
      match j with
      | 0 => exact ⟨f, by simp, by rw [normRows]; simp⟩
      | j' + 1 =>
          obtain ⟨g, h1, h2⟩ := ih (i + 1) j' (fun r hr => hobj r (by simp [hr]))
            (by simpa using hj)
          refine ⟨g, by simpa using h1, ?_⟩
          rw [normRows]
          simpa [show i + 1 + j' = i + (j' + 1) by omega] using h2

/-- Renormalizing already-normalized rows with the same start date is the
identity (all rows are dicts, so the enumeration indices line up again). -/
theorem normRows_idem (cfg : Obj) (g1 g2 : Nat → String) (start : PyDate) :
    ∀ (l : List JVal) (i : Nat), (∀ r ∈ l, ∃ f, r = .obj f) →
      normRows cfg g2 start i (normRows cfg g1 start i l) =
        normRows cfg g1 start i l := by
  intro l
  induction l with
  | nil => intro i _; rfl
  | cons hd tl ih =>
      intro i hobj
      obtain ⟨f, rfl⟩ := hobj hd (List.mem_cons_self hd tl)
      rw [normRows, normRows, rowStep_idem, ih (i + 1) (fun r hr => hobj r (by simp [hr]))]

/-! ### `normalize_table` structure lemmas -/

theorem normalize_rows (cfg : Obj) (gen : Nat → String) (today : PyDate) (t : Obj) :
    aget (normalize_table cfg gen today t) "rows" =
      some (.arr (normRows cfg gen (resolveStart today t) 0 (rowsInOf t))) := by
  unfold normalize_table
  rw [aget_aset_ne _ _ _ _ (by decide), aget_aset_ne _ _ _ _ (by decide), aget_aset_self]

theorem normalize_startDate (cfg : Obj) (gen : Nat → String) (today : PyDate) (t : Obj) :
    aget (normalize_table cfg gen today t) "startDate" =
      some (.str (resolveStart today t).toIso) := by
  unfold normalize_table
  rw [aget_aset_ne _ _ _ _ (by decide), aget_aset_self]

theorem normalize_meta (cfg : Obj) (gen : Nat → String) (today : PyDate) (t : Obj) :
    aget (normalize_table cfg gen today t) "meta" =
      some (.obj (aset (metaOf t) "startDate" (.str (resolveStart today t).toIso))) := by
  unfold normalize_table
  rw [aget_aset_self]

theorem normalize_frame (cfg : Obj) (gen : Nat → String) (today : PyDate) (t : Obj)
    {k : String} (h1 : k ≠ "rows") (h2 : k ≠ "startDate") (h3 : k ≠ "meta") :
    aget (normalize_table cfg gen today t) k = aget t k := by
  unfold normalize_table
  rw [aget_aset_ne _ _ _ _ (fun he => h3 he.symm),
    aget_aset_ne _ _ _ _ (fun he => h2 he.symm),
    aget_aset_ne _ _ _ _ (fun he => h1 he.symm)]

theorem rowsInOf_normalize (cfg : Obj) (gen : Nat → String) (today : PyDate) (t : Obj) :
    rowsInOf (normalize_table cfg gen today t) =
      normRows cfg gen (resolveStart today t) 0 (rowsInOf t) := by
  unfold rowsInOf
  rw [normalize_rows]
  rfl

theorem metaOf_normalize (cfg : Obj) (gen : Nat → String) (today : PyDate) (t : Obj) :
    metaOf (normalize_table cfg gen today t) =
      aset (metaOf t) "startDate" (.str (resolveStart today t).toIso) := by
  unfold metaOf
  rw [normalize_meta]
  rfl

theorem resolveStart_valid {today : PyDate} (htoday : today.Valid) (t : Obj) :
    (resolveStart today t).Valid := by
  unfold resolveStart
  cases h : parse_iso_date (some (.str (startIsoOf today t))) with
  | some dd =>
      simpa using parse_iso_date_valid h
  | none => simpa using htoday

theorem startIsoOf_normalize (cfg : Obj) (gen : Nat → String) (today1 today2 : PyDate)
    (t : Obj) :
    startIsoOf today2 (normalize_table cfg gen today1 t) =
      (resolveStart today1 t).toIso := by
  unfold startIsoOf
  rw [metaOf_normalize, aget_aset_self, strOr_str, pyStrip_toIso,
    if_pos (toIso_ne_empty (resolveStart today1 t))]

theorem resolveStart_normalize (cfg : Obj) (gen : Nat → String) {today1 : PyDate}
    (today2 : PyDate) (t : Obj) (htoday1 : today1.Valid) :
    resolveStart today2 (normalize_table cfg gen today1 t) = resolveStart today1 t := by
  unfold resolveStart
  rw [startIsoOf_normalize, parse_iso_date_toIso (resolveStart_valid htoday1 t)]
  rfl

theorem aset_aset_same {α : Type} (m : List (String × α)) (k : String) (v : α) :
    aset (aset m k v) k v = aset m k v :=
  aset_same _ _ _ (aget_aset_self m k v)

/-- The heart of the idempotence analysis: renormalizing a normalized table
(whose original rows were all dicts) changes nothing — any clock and id
generator may be used for the second pass. -/
theorem normalize_table_idem_aux (cfg : Obj) (g1 g2 : Nat → String)
    {today1 : PyDate} (today2 : PyDate) (t : Obj) (hT : today1.Valid)
    (hrows : ∀ r ∈ rowsInOf t, ∃ f, r = .obj f) :
    normalize_table cfg g2 today2 (normalize_table cfg g1 today1 t) =
      normalize_table cfg g1 today1 t := by
  have hdef : normalize_table cfg g2 today2 (normalize_table cfg g1 today1 t) =
      aset (aset (aset (normalize_table cfg g1 today1 t) "rows"
          (.arr (normRows cfg g2
            (resolveStart today2 (normalize_table cfg g1 today1 t)) 0
            (rowsInOf (normalize_table cfg g1 today1 t)))))
        "startDate"
        (.str (resolveStart today2 (normalize_table cfg g1 today1 t)).toIso))
      "meta" (.obj (aset (metaOf (normalize_table cfg g1 today1 t)) "startDate"
        (.str (resolveStart today2 (normalize_table cfg g1 today1 t)).toIso))) := rfl
  rw [hdef, resolveStart_normalize cfg g1 today2 t hT, rowsInOf_normalize,
    metaOf_normalize, normRows_idem cfg g1 g2 (resolveStart today1 t) (rowsInOf t) 0 hrows,
    aset_same _ _ _ (normalize_rows cfg g1 today1 t),
    aset_same _ _ _ (normalize_startDate cfg g1 today1 t),
    aset_aset_same,
    aset_same _ _ _ (normalize_meta cfg g1 today1 t)]

/-- Per-index load dates after one normalization pass, when every input row is
a dict. -/
theorem normalize_loadDates (cfg : Obj) (gen : Nat → String) (today : PyDate) (t : Obj)
    (hrows : ∀ r ∈ rowsInOf t, ∃ f, r = .obj f) :
    (rowsInOf (normalize_table cfg gen today t)).length = (rowsInOf t).length ∧
    ∀ j, j < (rowsInOf t).length →
      ∃ g, (rowsInOf (normalize_table cfg gen today t))[j]? = some (.obj g) ∧
        aget g "loadDate" = some (.str (addDays (resolveStart today t) j).toIso) := by
  rw [rowsInOf_normalize]
  constructor
  · exact normRows_length cfg gen _ (rowsInOf t) 0 hrows
  · intro j hj
    obtain ⟨f, _, h2⟩ := normRows_getElem cfg gen (resolveStart today t) (rowsInOf t)
      0 j hrows hj
    refine ⟨_, by simpa using h2, ?_⟩
    have := rowStep_loadDate cfg (gen (0 + j)) (addDays (resolveStart today t) (0 + j)) f
    simpa using this

/-! ### `create_table` lemmas -/

theorem metaOf_createLit (cfg : Obj) (gen : Nat → String) (tblId now : String)
    (today : PyDate) (sIso : String) (n : Int) :
    metaOf (createTableLit cfg gen tblId now today sIso n) =
      [("startDate", .str sIso), ("initialRows", .num n)] := rfl

theorem rowsInOf_createLit (cfg : Obj) (gen : Nat → String) (tblId now : String)
    (today : PyDate) (sIso : String) (n : Int) :
    rowsInOf (createTableLit cfg gen tblId now today sIso n) =
      ensure_rows_from_start_date cfg gen today sIso n := rfl

theorem createStartIso_toIso (today d : PyDate) : createStartIso today d.toIso = d.toIso := by
  unfold createStartIso
  rw [pyStrip_toIso, if_pos (toIso_ne_empty d)]

theorem resolveStart_createLit (cfg : Obj) (gen : Nat → String) (tblId now : String)
    (today : PyDate) {d : PyDate} (n : Int) (hd : d.Valid) :
    resolveStart today (createTableLit cfg gen tblId now today d.toIso n) = d := by
  unfold resolveStart startIsoOf
  rw [metaOf_createLit]
  rw [show aget [("startDate", JVal.str d.toIso), ("initialRows", JVal.num n)]
      "startDate" = some (.str d.toIso) from rfl]
  rw [strOr_str, pyStrip_toIso, if_pos (toIso_ne_empty d), parse_iso_date_toIso hd]
  rfl

theorem ensure_rows_allobj (cfg : Obj) (gen : Nat → String) (today : PyDate)
    (sIso : String) (n : Int) :
    ∀ r ∈ ensure_rows_from_start_date cfg gen today sIso n, ∃ f, r = .obj f := by
  intro r hr
  unfold ensure_rows_from_start_date at hr
  obtain ⟨i, _, rfl⟩ := List.mem_map.mp hr
  exact ⟨_, rfl⟩

theorem ensure_rows_length (cfg : Obj) (gen : Nat → String) (today : PyDate)
    (sIso : String) (n : Int) :
    (ensure_rows_from_start_date cfg gen today sIso n).length = (max 1 n).toNat := by
  unfold ensure_rows_from_start_date
  rw [List.length_map, List.length_range]

/-- The `loadDate` string of the `j`-th row of a table (used to observe
concrete runs). -/
def obsLoadDate (t : Obj) (j : Nat) : Option String :=
  match (rowsInOf t)[j]? with
  | some (.obj g) =>
      match aget g "loadDate" with
      | some (.str s) => some s
      | _ => none
  | _ => none

/-- C1 (amended): after `create_table` followed by `normalize_table` on a
valid ISO start date and a row count ≥ 1, `rows[i].loadDate` is
`startDate + i` days in ISO format for every index; and `normalize_table`
guarantees the same invariant for every table **whose rows are all dicts**
(when a non-dict entry is dropped, the `enumerate` index still advances, so
the surviving rows keep the dates of their original positions). -/
theorem C1_amended :
    (∀ (cfg : Obj) (gen : Nat → String) (tblId now : String) (today d : PyDate)
      (n : Int), d.Valid → 1 ≤ n →
      aget (create_table cfg gen tblId now today d.toIso n) "startDate" =
        some (.str d.toIso) ∧
      (rowsInOf (create_table cfg gen tblId now today d.toIso n)).length = n.toNat ∧
      (∀ j, j < n.toNat → ∃ g,
        (rowsInOf (create_table cfg gen tblId now today d.toIso n))[j]? =
          some (.obj g) ∧
        aget g "loadDate" = some (.str (addDays d j).toIso))) ∧
    (∀ (cfg : Obj) (gen : Nat → String) (today : PyDate) (t : Obj),
      (∀ r ∈ rowsInOf t, ∃ f, r = .obj f) →
      ∃ s : PyDate,
        aget (normalize_table cfg gen today t) "startDate" = some (.str s.toIso) ∧
        (rowsInOf (normalize_table cfg gen today t)).length = (rowsInOf t).length ∧
        ∀ j, j < (rowsInOf t).length → ∃ g,
          (rowsInOf (normalize_table cfg gen today t))[j]? = some (.obj g) ∧
          aget g "loadDate" = some (.str (addDays s j).toIso)) := by
  constructor
  · intro cfg gen tblId now today d n hd hn
    have hc : create_table cfg gen tblId now today d.toIso n =
        normalize_table cfg gen today
          (createTableLit cfg gen tblId now today d.toIso n) := by
      unfold create_table
      rw [createStartIso_toIso]
    have hrowsLit : ∀ r ∈ rowsInOf (createTableLit cfg gen tblId now today d.toIso n),
        ∃ f, r = .obj f := by
      rw [rowsInOf_createLit]
      exact ensure_rows_allobj cfg gen today d.toIso n
    have hlen : (rowsInOf (createTableLit cfg gen tblId now today d.toIso n)).length =
        n.toNat := by
      rw [rowsInOf_createLit, ensure_rows_length, max_eq_right hn]
    obtain ⟨hl, hg⟩ := normalize_loadDates cfg gen today
      (createTableLit cfg gen tblId now today d.toIso n) hrowsLit
    refine ⟨?_, ?_, ?_⟩
    · rw [hc, normalize_startDate, resolveStart_createLit cfg gen tblId now today n hd]
    · rw [hc, hl, hlen]
    · intro j hj
      obtain ⟨g, h1, h2⟩ := hg j (by rw [hlen]; exact hj)
      refine ⟨g, by rw [hc]; exact h1, ?_⟩
      rw [resolveStart_createLit cfg gen tblId now today n hd] at h2
      exact h2
  · intro cfg gen today t hrows
    obtain ⟨hl, hg⟩ := normalize_loadDates cfg gen today t hrows
    exact ⟨resolveStart today t, normalize_startDate cfg gen today t, hl, hg⟩

/-- C1 witness: `create_table` on 2026-02-25 with 3 rows, and a normalization
of a one-dict-row table. -/
theorem C1_witness :
    (aget (create_table [] (fun i => toString i) "tbl" "T" ⟨2026, 1, 1⟩
        (PyDate.toIso ⟨2026, 2, 25⟩) 3) "startDate" =
      some (.str (PyDate.toIso ⟨2026, 2, 25⟩)) ∧
     (rowsInOf (create_table [] (fun i => toString i) "tbl" "T" ⟨2026, 1, 1⟩
        (PyDate.toIso ⟨2026, 2, 25⟩) 3)).length = (3 : Int).toNat ∧
     (∀ j, j < (3 : Int).toNat → ∃ g,
        (rowsInOf (create_table [] (fun i => toString i) "tbl" "T" ⟨2026, 1, 1⟩
          (PyDate.toIso ⟨2026, 2, 25⟩) 3))[j]? = some (.obj g) ∧
        aget g "loadDate" = some (.str (addDays ⟨2026, 2, 25⟩ j).toIso))) ∧
    (∃ s : PyDate,
      aget (normalize_table [] (fun i => toString i) ⟨2026, 1, 1⟩
          [("rows", JVal.arr [JVal.obj []])]) "startDate" = some (.str s.toIso) ∧
      (rowsInOf (normalize_table [] (fun i => toString i) ⟨2026, 1, 1⟩
          [("rows", JVal.arr [JVal.obj []])])).length =
        (rowsInOf [("rows", JVal.arr [JVal.obj []])]).length ∧
      ∀ j, j < (rowsInOf [("rows", JVal.arr [JVal.obj []])]).length → ∃ g,
        (rowsInOf (normalize_table [] (fun i => toString i) ⟨2026, 1, 1⟩
            [("rows", JVal.arr [JVal.obj []])]))[j]? = some (.obj g) ∧
        aget g "loadDate" = some (.str (addDays s j).toIso)) :=
  ⟨C1_amended.1 [] (fun i => toString i) "tbl" "T" ⟨2026, 1, 1⟩ ⟨2026, 2, 25⟩ 3
      (by decide) (by decide),
   C1_amended.2 [] (fun i => toString i) ⟨2026, 1, 1⟩ [("rows", JVal.arr [JVal.obj []])]
      (by
        intro r hr
        rw [show rowsInOf [("rows", JVal.arr [JVal.obj []])] = [JVal.obj []] from rfl]
          at hr
        rcases List.mem_singleton.mp hr with rfl
        exact ⟨[], rfl⟩)⟩

/-- C1 counterexample: normalizing a table whose rows are `[5, {}]` drops the
malformed entry but keeps the `enumerate` index, so the surviving row gets
`loadDate = startDate + 1` at output index 0 — the claimed invariant
`rows[0].loadDate == startDate + 0 days` fails on the returned table. -/
theorem C1_counterexample :
    aget (normalize_table [] (fun _ => "rid") ⟨2026, 1, 5⟩
        [("startDate", JVal.str "2026-01-01"),
         ("rows", JVal.arr [JVal.num 5, JVal.obj []])]) "startDate" =
      some (JVal.str "2026-01-01") ∧
    (rowsInOf (normalize_table [] (fun _ => "rid") ⟨2026, 1, 5⟩
        [("startDate", JVal.str "2026-01-01"),
         ("rows", JVal.arr [JVal.num 5, JVal.obj []])])).length = 1 ∧
    obsLoadDate (normalize_table [] (fun _ => "rid") ⟨2026, 1, 5⟩
        [("startDate", JVal.str "2026-01-01"),
         ("rows", JVal.arr [JVal.num 5, JVal.obj []])]) 0 = some "2026-01-02" ∧
    ("2026-01-02" : String) ≠ "2026-01-01" :=
  ⟨rfl, rfl, rfl, by decide⟩

/-- C3 (amended): `normalize_table` is idempotent on every table whose rows
are all dicts (none dropped); the second pass may use any clock and id
generator.  When a non-dict row entry is dropped, the load dates shift on the
second pass, so idempotence fails in general. -/
theorem C3_amended (cfg : Obj) (g1 g2 : Nat → String) (today1 today2 : PyDate)
    (t : Obj) (hT : today1.Valid) (hrows : ∀ r ∈ rowsInOf t, ∃ f, r = .obj f) :
    normalize_table cfg g2 today2 (normalize_table cfg g1 today1 t) =
      normalize_table cfg g1 today1 t :=
  normalize_table_idem_aux cfg g1 g2 today2 t hT hrows

/-- C3 witness: a second normalization of a normalized one-dict-row table is
the identity. -/
theorem C3_witness :
    normalize_table [] (fun _ => "s") ⟨2026, 3, 1⟩
        (normalize_table [] (fun _ => "r") ⟨2026, 1, 1⟩
          [("rows", JVal.arr [JVal.obj []])]) =
      normalize_table [] (fun _ => "r") ⟨2026, 1, 1⟩
        [("rows", JVal.arr [JVal.obj []])] :=
  C3_amended [] (fun _ => "r") (fun _ => "s") ⟨2026, 1, 1⟩ ⟨2026, 3, 1⟩
    [("rows", JVal.arr [JVal.obj []])] (by decide)
    (by
      intro r hr
      rw [show rowsInOf [("rows", JVal.arr [JVal.obj []])] = [JVal.obj []] from rfl] at hr
      rcases List.mem_singleton.mp hr with rfl
      exact ⟨[], rfl⟩)

/-- C3 counterexample: on the table with rows `[5, {}]` the first
normalization dates the surviving row `startDate + 1`; the second pass
re-dates it `startDate + 0`, so normalizing twice differs from normalizing
once. -/
theorem C3_counterexample :
    normalize_table [] (fun _ => "rid") ⟨2026, 1, 5⟩
        (normalize_table [] (fun _ => "rid") ⟨2026, 1, 5⟩
          [("startDate", JVal.str "2026-01-01"),
           ("rows", JVal.arr [JVal.num 5, JVal.obj []])]) ≠
      normalize_table [] (fun _ => "rid") ⟨2026, 1, 5⟩
        [("startDate", JVal.str "2026-01-01"),
         ("rows", JVal.arr [JVal.num 5, JVal.obj []])] := by
  intro h
  have h2 := congrArg (fun u => obsLoadDate u 0) h
  dsimp only at h2
  rw [show obsLoadDate (normalize_table [] (fun _ => "rid") ⟨2026, 1, 5⟩
      (normalize_table [] (fun _ => "rid") ⟨2026, 1, 5⟩
        [("startDate", JVal.str "2026-01-01"),
         ("rows", JVal.arr [JVal.num 5, JVal.obj []])])) 0 = some "2026-01-01" from rfl,
    show obsLoadDate (normalize_table [] (fun _ => "rid") ⟨2026, 1, 5⟩
      [("startDate", JVal.str "2026-01-01"),
       ("rows", JVal.arr [JVal.num 5, JVal.obj []])]) 0 = some "2026-01-02" from rfl]
    at h2
  exact absurd h2 (by decide)

/-- C10: on a table whose rows are all dicts, `normalize_table` changes in
each row only `id` (set only when absent), `vehicle` and `model` (set only
when blank, in the source's sense of `str(x or "").strip() == ""`),
`loadDate` and `amount`; every other row field, the relative order of the
rows, and every table field other than `rows`, `startDate` and `meta` are
unchanged.  (The no-in-place-mutation clause of the claim is representational:
the source copies every dict it rewrites, which is what this purely functional
embedding expresses.) -/
theorem C10_frame (cfg : Obj) (gen : Nat → String) (today : PyDate) (t : Obj)
    (hrows : ∀ r ∈ rowsInOf t, ∃ f, r = .obj f) :
    (∀ k, k ≠ "rows" → k ≠ "startDate" → k ≠ "meta" →
      aget (normalize_table cfg gen today t) k = aget t k) ∧
    (rowsInOf (normalize_table cfg gen today t)).length = (rowsInOf t).length ∧
    (∀ j, j < (rowsInOf t).length → ∃ f g,
      (rowsInOf t)[j]? = some (.obj f) ∧
      (rowsInOf (normalize_table cfg gen today t))[j]? = some (.obj g) ∧
      (∀ k, ¬ k ∈ rowKeys → aget g k = aget f k) ∧
      (∀ v, aget f "id" = some v → aget g "id" = some v) ∧
      (pyStrip (strOr (aget f "vehicle")) ≠ "" → aget g "vehicle" = aget f "vehicle") ∧
      (pyStrip (strOr (aget f "model")) ≠ "" → aget g "model" = aget f "model")) := by
  refine ⟨fun k h1 h2 h3 => normalize_frame cfg gen today t h1 h2 h3,
    (normalize_loadDates cfg gen today t hrows).1, ?_⟩
  intro j hj
  obtain ⟨f, h1, h2⟩ := normRows_getElem cfg gen (resolveStart today t) (rowsInOf t)
    0 j hrows hj
  refine ⟨f, rowStep cfg (gen (0 + j)) (addDays (resolveStart today t) (0 + j)) f,
    h1, ?_, ?_, ?_, ?_, ?_⟩
  · rw [rowsInOf_normalize]
    exact h2
  · intro k hk
    exact rowStep_frame cfg _ _ f hk
  · intro v hv
    exact rowStep_id_of_present cfg _ _ hv
  · exact rowStep_vehicle cfg _ _ f
  · exact rowStep_model cfg _ _ f

/-- C10 witness: a table with one row carrying an id, a non-blank vehicle and
an extra field, plus an extra table field. -/
theorem C10_witness :
    (∀ k, k ≠ "rows" → k ≠ "startDate" → k ≠ "meta" →
      aget (normalize_table [] (fun _ => "rid") ⟨2026, 1, 1⟩
        [("rows", JVal.arr [JVal.obj
            [("id", JVal.str "x"), ("vehicle", JVal.str "V"), ("extra", JVal.num 7)]]),
         ("other", JVal.str "o")]) k =
      aget [("rows", JVal.arr [JVal.obj
            [("id", JVal.str "x"), ("vehicle", JVal.str "V"), ("extra", JVal.num 7)]]),
         ("other", JVal.str "o")] k) ∧
    (rowsInOf (normalize_table [] (fun _ => "rid") ⟨2026, 1, 1⟩
        [("rows", JVal.arr [JVal.obj
            [("id", JVal.str "x"), ("vehicle", JVal.str "V"), ("extra", JVal.num 7)]]),
         ("other", JVal.str "o")])).length =
      (rowsInOf [("rows", JVal.arr [JVal.obj
            [("id", JVal.str "x"), ("vehicle", JVal.str "V"), ("extra", JVal.num 7)]]),
         ("other", JVal.str "o")]).length ∧
    (∀ j, j < (rowsInOf [("rows", JVal.arr [JVal.obj
            [("id", JVal.str "x"), ("vehicle", JVal.str "V"), ("extra", JVal.num 7)]]),
         ("other", JVal.str "o")]).length → ∃ f g,
      (rowsInOf [("rows", JVal.arr [JVal.obj
            [("id", JVal.str "x"), ("vehicle", JVal.str "V"), ("extra", JVal.num 7)]]),
         ("other", JVal.str "o")])[j]? = some (.obj f) ∧
      (rowsInOf (normalize_table [] (fun _ => "rid") ⟨2026, 1, 1⟩
        [("rows", JVal.arr [JVal.obj
            [("id", JVal.str "x"), ("vehicle", JVal.str "V"), ("extra", JVal.num 7)]]),
         ("other", JVal.str "o")]))[j]? = some (.obj g) ∧
      (∀ k, ¬ k ∈ rowKeys → aget g k = aget f k) ∧
      (∀ v, aget f "id" = some v → aget g "id" = some v) ∧
      (pyStrip (strOr (aget f "vehicle")) ≠ "" → aget g "vehicle" = aget f "vehicle") ∧
      (pyStrip (strOr (aget f "model")) ≠ "" → aget g "model" = aget f "model")) :=
  C10_frame [] (fun _ => "rid") ⟨2026, 1, 1⟩
    [("rows", JVal.arr [JVal.obj
        [("id", JVal.str "x"), ("vehicle", JVal.str "V"), ("extra", JVal.num 7)]]),
     ("other", JVal.str "o")]
    (by
      intro r hr
      rw [show rowsInOf [("rows", JVal.arr [JVal.obj
          [("id", JVal.str "x"), ("vehicle", JVal.str "V"), ("extra", JVal.num 7)]]),
         ("other", JVal.str "o")] = [JVal.obj
          [("id", JVal.str "x"), ("vehicle", JVal.str "V"), ("extra", JVal.num 7)]]
        from rfl] at hr
      rcases List.mem_singleton.mp hr with rfl
      exact ⟨_, rfl⟩)

/-! ### Exactness of the decimal arithmetic below the precision limit -/

theorem natDigitsRev_lt (c : Nat) : c < 10 ^ (natDigitsRev c).length := by
  induction c using Nat.strong_induction_on with
  | _ c ih =>
      by_cases hc : c = 0
      · subst hc
        rw [natDigitsRev_zero]
        simp
      · rw [natDigitsRev_unfold c hc]
        have := ih (c / 10) (by omega)
        simp only [List.length_cons]
        rw [pow_succ]
        omega

theorem natDigitsRev_le : ∀ c : Nat, c ≠ 0 → 10 ^ ((natDigitsRev c).length - 1) ≤ c := by
  intro c
  induction c using Nat.strong_induction_on with
  | _ c ih =>
      intro hc
      rw [natDigitsRev_unfold c hc]
      by_cases h10 : c < 10
      · have hz : c / 10 = 0 := by omega
        rw [hz, natDigitsRev_zero]
        simp only [List.length_cons, List.length_nil]
        omega
      · have hne : c / 10 ≠ 0 := by omega
        have hrec := ih (c / 10) (by omega) hne
        simp only [List.length_cons]
        rw [Nat.add_sub_cancel]
        have hlen : 1 ≤ (natDigitsRev (c / 10)).length := by
          rw [natDigitsRev_unfold _ hne]
          simp
        have hp : 10 ^ (natDigitsRev (c / 10)).length =
            10 * 10 ^ ((natDigitsRev (c / 10)).length - 1) := by
          rw [← pow_succ']
          congr 1
          omega
        omega

theorem numDigits_le_iff (c : Nat) : numDigits c ≤ prec ↔ c < 10 ^ prec := by
  unfold numDigits prec
  by_cases hc : c = 0
  · subst hc
    simp
  · rw [if_neg hc]
    constructor
    · intro h
      calc c < 10 ^ (natDigitsRev c).length := natDigitsRev_lt c
        _ ≤ 10 ^ 28 := Nat.pow_le_pow_right (by norm_num) h
    · intro h
      by_contra hgt
      push_neg at hgt
      have hle := natDigitsRev_le c hc
      have hpow : 10 ^ 28 ≤ 10 ^ ((natDigitsRev c).length - 1) :=
        Nat.pow_le_pow_right (by norm_num) (by omega)
      omega

theorem fixPrec_of_fits {c : Nat} (e : Int) (h : c < 10 ^ prec) :
    fixPrec c e = (c, e) := by
  unfold fixPrec
  rw [if_pos ((numDigits_le_iff c).mpr h)]

theorem toRat_dmul_exact (s1 : Bool) (c1 : Nat) (e1 : Int) (s2 : Bool) (c2 : Nat)
    (e2 : Int) (h : c1 * c2 < 10 ^ prec) :
    (dmul (.fin s1 c1 e1) (.fin s2 c2 e2)).toRat =
      (Dec.fin s1 c1 e1).toRat * (Dec.fin s2 c2 e2).toRat := by
  unfold dmul
  dsimp only
  rw [fixPrec_of_fits (e1 + e2) h]
  unfold Dec.toRat
  dsimp only
  rw [zpow_add₀ (by norm_num : (10 : ℚ) ≠ 0)]
  cases s1 <;> cases s2 <;>
    simp only [Bool.cond_true, Bool.cond_false, Bool.xor_true, Bool.xor_false,
      Bool.true_xor, Bool.false_xor, Bool.xor_self, Bool.not_true, Bool.not_false] <;>
    push_cast <;> ring

theorem toRat_fin_shift (s : Bool) (c : Nat) {e m : Int} (h : m ≤ e) :
    (Dec.fin s c e).toRat =
      ((cond s (-(c : Int)) (c : Int) : Int) : ℚ) * (10 : ℚ) ^ ((e - m).toNat) *
        (10 : ℚ) ^ m := by
  unfold Dec.toRat
  dsimp only
  have hsplit : (10 : ℚ) ^ e = (10 : ℚ) ^ ((e - m).toNat) * (10 : ℚ) ^ m := by
    rw [← zpow_natCast (10 : ℚ) (e - m).toNat,
      ← zpow_add₀ (by norm_num : (10 : ℚ) ≠ 0)]
    congr 1
    omega
  cases s <;> rw [hsplit] <;>
    simp only [Bool.cond_true, Bool.cond_false] <;> push_cast <;> ring

theorem toRat_sum_pair (s1 : Bool) (c1 : Nat) (e1 : Int) (s2 : Bool) (c2 : Nat)
    (e2 : Int) :
    (Dec.fin s1 c1 e1).toRat + (Dec.fin s2 c2 e2).toRat =
      ((addSumInt s1 c1 e1 s2 c2 e2 : Int) : ℚ) * (10 : ℚ) ^ (min e1 e2) := by
  rw [toRat_fin_shift s1 c1 (min_le_left e1 e2), toRat_fin_shift s2 c2 (min_le_right e1 e2)]
  unfold addSumInt
  push_cast
  ring

theorem toRat_dadd_exact (s1 : Bool) (c1 : Nat) (e1 : Int) (s2 : Bool) (c2 : Nat)
    (e2 : Int) (h : (addSumInt s1 c1 e1 s2 c2 e2).natAbs < 10 ^ prec) :
    (dadd (.fin s1 c1 e1) (.fin s2 c2 e2)).toRat =
      (Dec.fin s1 c1 e1).toRat + (Dec.fin s2 c2 e2).toRat := by
  rw [toRat_sum_pair]
  unfold dadd
  dsimp only
  by_cases hz : addSumInt s1 c1 e1 s2 c2 e2 = 0
  · rw [if_pos hz, hz]
    unfold Dec.toRat
    cases s1 <;> cases s2 <;> simp
  · rw [if_neg hz, fixPrec_of_fits (min e1 e2) h]
    unfold Dec.toRat
    dsimp only
    rcases lt_trichotomy (addSumInt s1 c1 e1 s2 c2 e2) 0 with hlt | heq | hgt
    · rw [decide_eq_true hlt]
      simp only [Bool.cond_true]
      have h2 : ((addSumInt s1 c1 e1 s2 c2 e2).natAbs : Int) =
          -(addSumInt s1 c1 e1 s2 c2 e2) := by omega
      have h3 : ((addSumInt s1 c1 e1 s2 c2 e2).natAbs : ℚ) =
          -((addSumInt s1 c1 e1 s2 c2 e2 : Int) : ℚ) := by
        have h4 := congrArg (fun z : Int => (z : ℚ)) h2
        push_cast at h4
        rw [Int.cast_natAbs]
        push_cast
        exact h4
      rw [h3]
      ring
    · exact absurd heq hz
    · rw [decide_eq_false (not_lt.mpr (le_of_lt hgt))]
      simp only [Bool.cond_false]
      have h2 : ((addSumInt s1 c1 e1 s2 c2 e2).natAbs : Int) =
          addSumInt s1 c1 e1 s2 c2 e2 := by omega
      have h3 : ((addSumInt s1 c1 e1 s2 c2 e2).natAbs : ℚ) =
          ((addSumInt s1 c1 e1 s2 c2 e2 : Int) : ℚ) := by
        have h4 := congrArg (fun z : Int => (z : ℚ)) h2
        push_cast at h4
        rw [Int.cast_natAbs]
        push_cast
        exact h4
      rw [h3]
      ring

/-! ### The canonical shape of `fmt_decimal`'s output -/

theorem dChar_ne_dot (j : Nat) : dChar j ≠ '.' := by
  rw [← dChar_mod]
  exact fun he => ((dChar_facts (j % 10) (by omega)).2.2.2.2).mp he

theorem dChar_ne_zero {j : Nat} (hj : j < 10) (h : j ≠ 0) : dChar j ≠ '0' := by
  revert h
  interval_cases j <;> decide

theorem natDigits_chars : ∀ (n : Nat), ∀ ch ∈ natDigits n, ∃ j, ch = dChar j := by
  intro n ch hch
  unfold natDigits at hch
  split at hch
  · simp only [List.mem_singleton] at hch
    exact ⟨0, by rw [hch]; rfl⟩
  · rw [List.mem_reverse] at hch
    rename_i hn
    clear hn
    induction n using Nat.strong_induction_on with
    | _ n ih =>
        by_cases h0 : n = 0
        · subst h0
          rw [natDigitsRev_zero] at hch
          simp at hch
        · rw [natDigitsRev_unfold n h0] at hch
          rcases List.mem_cons.mp hch with rfl | hch
          · exact ⟨n % 10, rfl⟩
          · exact ih (n / 10) (by omega) hch

theorem not_dot_natDigits (n : Nat) : '.' ∉ natDigits n := by
  intro h
  obtain ⟨j, hj⟩ := natDigits_chars n '.' h
  exact dChar_ne_dot j hj.symm

theorem not_dot_decSign (s : Bool) : '.' ∉ decSignStr s := by
  cases s <;> decide

theorem formatFL_no_dot_nonneg (s : Bool) (c : Nat) {e : Int} (he : 0 ≤ e) :
    '.' ∉ formatFL (.fin s c e) := by
  intro h
  unfold formatFL at h
  dsimp only at h
  rw [if_pos he] at h
  rcases List.mem_append.mp h with h1 | h2
  · exact not_dot_decSign s h1
  · rcases List.mem_append.mp h2 with h3 | h4
    · exact not_dot_natDigits c h3
    · have := List.eq_of_mem_replicate h4
      exact absurd this (by decide)

theorem natDigits_getLast (n : Nat) : (natDigits n).getLast? = some (dChar (n % 10)) := by
  unfold natDigits
  split
  · rename_i h0
    subst h0
    rfl
  · rename_i h0
    rw [List.getLast?_reverse, natDigitsRev_unfold n h0]
    rfl

theorem formatFL_getLast_neg (s : Bool) (c : Nat) {e : Int} (he : e < 0) :
    (formatFL (.fin s c e)).getLast? = some (dChar (c % 10)) := by
  unfold formatFL
  dsimp only
  rw [if_neg (by omega)]
  have hk1 : 1 ≤ (-e).toNat := by omega
  split_ifs with hkl
  · have hdrop : ((natDigits c).drop ((natDigits c).length - (-e).toNat)) ≠ [] := by
      intro hnil
      have hlen := congrArg List.length hnil
      rw [List.length_drop] at hlen
      simp only [List.length_nil] at hlen
      omega
    rw [List.getLast?_append_of_ne_nil _ (by simp), List.getLast?_append_cons,
      show ('.' :: (natDigits c).drop ((natDigits c).length - (-e).toNat)) =
        ['.'] ++ (natDigits c).drop ((natDigits c).length - (-e).toNat) from rfl,
      List.getLast?_append_of_ne_nil _ hdrop]
    calc ((natDigits c).drop ((natDigits c).length - (-e).toNat)).getLast?
        = ((natDigits c).take ((natDigits c).length - (-e).toNat) ++
            (natDigits c).drop ((natDigits c).length - (-e).toNat)).getLast? :=
          (List.getLast?_append_of_ne_nil _ hdrop).symm
      _ = (natDigits c).getLast? := by rw [List.take_append_drop]
      _ = some (dChar (c % 10)) := natDigits_getLast c
  · rw [List.getLast?_append_of_ne_nil _ (by simp),
      show ('0' :: '.' :: (List.replicate ((-e).toNat - (natDigits c).length) '0' ++
          natDigits c)) =
        ('0' :: '.' :: List.replicate ((-e).toNat - (natDigits c).length) '0') ++
          natDigits c from rfl,
      List.getLast?_append_of_ne_nil _ (natDigits_ne_nil c), natDigits_getLast]

/-- What `stripTrailingZeros` guarantees on a nonzero coefficient. -/
theorem stripTrailingZeros_good : ∀ (c : Nat), c ≠ 0 → ∀ (e : Int),
    (stripTrailingZeros c e).1 ≠ 0 ∧ (stripTrailingZeros c e).1 % 10 ≠ 0 := by
  intro c
  induction c using Nat.strong_induction_on with
  | _ c ih =>
      intro hc e
      rw [stripTrailingZeros_unfold]
      split_ifs with h
      · exact ih (c / 10) (by omega) (by omega) (e + 1)
      · push_neg at h
        exact ⟨hc, h hc⟩

theorem numDigits_lower {c : Nat} (hc : c ≠ 0) : 10 ^ (numDigits c - 1) ≤ c := by
  unfold numDigits
  rw [if_neg hc]
  exact natDigitsRev_le c hc

theorem roundHalfEven_ge (c k : Nat) : c / 10 ^ k ≤ roundHalfEven c k := by
  unfold roundHalfEven
  split_ifs <;> omega

theorem fixPrec_ne_zero {c : Nat} (e : Int) (hc : c ≠ 0) : (fixPrec c e).1 ≠ 0 := by
  unfold fixPrec prec
  split_ifs with h1 h2
  · exact hc
  · have hlow := numDigits_lower hc
    have hpow : 10 ^ (numDigits c - 28) ≤ 10 ^ (numDigits c - 1) :=
      Nat.pow_le_pow_right (by norm_num) (by omega)
    have hdiv : 1 ≤ c / 10 ^ (numDigits c - 28) :=
      (Nat.one_le_div_iff (Nat.pos_pow_of_pos _ (by norm_num))).mpr (le_trans hpow hlow)
    have hge := roundHalfEven_ge c (numDigits c - 28)
    omega
  · have hq : roundHalfEven c (numDigits c - 28) ≠ 0 := by
      have hlow := numDigits_lower hc
      have hpow : 10 ^ (numDigits c - 28) ≤ 10 ^ (numDigits c - 1) :=
        Nat.pow_le_pow_right (by norm_num) (by omega)
      have hdiv : 1 ≤ c / 10 ^ (numDigits c - 28) :=
        (Nat.one_le_div_iff (Nat.pos_pow_of_pos _ (by norm_num))).mpr (le_trans hpow hlow)
      have hge := roundHalfEven_ge c (numDigits c - 28)
      omega
    have hlow2 := numDigits_lower hq
    have hnum : 1 ≤ numDigits (roundHalfEven c (numDigits c - 28)) - 1 := by omega
    have h10 : 10 ≤ 10 ^ (numDigits (roundHalfEven c (numDigits c - 28)) - 1) := by
      calc (10 : Nat) = 10 ^ 1 := (pow_one 10).symm
        _ ≤ _ := Nat.pow_le_pow_right (by norm_num) hnum
    omega

/-- `dnormalize` outputs either a zero with exponent 0 or a coefficient with
no trailing zero digit. -/
theorem dnormalize_fin_props {d : Dec} {s : Bool} {c : Nat} {e : Int}
    (h : dnormalize d = .fin s c e) :
    (c = 0 ∧ e = 0) ∨ (c ≠ 0 ∧ c % 10 ≠ 0) := by
  match d with
  | .nan => exact absurd h (by simp [dnormalize])
  | .inf s0 => exact absurd h (by simp [dnormalize])
  | .fin s0 c0 e0 =>
      unfold dnormalize at h
      dsimp only at h
      split_ifs at h with h0
      · injection h with h1 h2 h3
        exact Or.inl ⟨h2.symm, h3.symm⟩
      · injection h with h1 h2 h3
        subst h2
        exact Or.inr (stripTrailingZeros_good (fixPrec c0 e0).1
          (fixPrec_ne_zero e0 h0) (fixPrec c0 e0).2)

theorem char_contains_iff (l : List Char) (a : Char) : l.contains a = true ↔ a ∈ l :=
  List.elem_iff

theorem not_contains_of_not_mem {l : List Char} {a : Char} (h : a ∉ l) :
    ¬ l.contains a = true := fun hc => h ((char_contains_iff l a).mp hc)

theorem rstripL_eq_self_of_getLast {l : List Char} {b : Char}
    (h : ∀ c, l.getLast? = some c → c ≠ b) : rstripL l b = l := by
  unfold rstripL
  cases hrev : l.reverse with
  | nil =>
      have : l = [] := by simpa using congrArg List.reverse hrev
      subst this
      rfl
  | cons a as =>
      have ha : l.getLast? = some a := by
        rw [List.getLast?_eq_head?_reverse, hrev]
        rfl
      rw [List.dropWhile_cons, if_neg (by simp [h a ha])]
      rw [← hrev, List.reverse_reverse]

/-- C2's formatting clause: whenever `fmt_decimal`'s output contains a decimal
point, it neither ends in `'0'` nor in `'.'`. -/
theorem fmt_decimal_canonical (d : Dec) :
    '.' ∈ (fmt_decimal d).data →
      (fmt_decimal d).data.getLast? ≠ some '0' ∧
      (fmt_decimal d).data.getLast? ≠ some '.' := by
  unfold fmt_decimal
  cases hd : dnormalize d with
  | nan =>
      rw [if_neg (by decide)]
      intro h
      exact absurd h (by decide)
  | inf s =>
      cases s
      · rw [if_neg (by decide)]
        intro h
        exact absurd h (by decide)
      · rw [if_neg (by decide)]
        intro h
        exact absurd h (by decide)
  | fin s c e =>
      rcases dnormalize_fin_props hd with ⟨hc, he⟩ | ⟨hc, he⟩
      · subst hc
        subst he
        rw [if_neg (not_contains_of_not_mem (formatFL_no_dot_nonneg s 0 (le_refl 0)))]
        intro h
        exact absurd h (formatFL_no_dot_nonneg s 0 (le_refl 0))
      · by_cases hneg : 0 ≤ e
        · rw [if_neg (not_contains_of_not_mem (formatFL_no_dot_nonneg s c hneg))]
          intro h
          exact absurd h (formatFL_no_dot_nonneg s c hneg)
        · have hlast := formatFL_getLast_neg s c (by omega : e < 0)
          have hmod : c % 10 < 10 := Nat.mod_lt c (by norm_num)
          have hne0 : dChar (c % 10) ≠ '0' := dChar_ne_zero hmod he
          have hnedot : dChar (c % 10) ≠ '.' := dChar_ne_dot (c % 10)
          have hstrip1 : rstripL (formatFL (Dec.fin s c e)) '0' =
              formatFL (Dec.fin s c e) :=
            rstripL_eq_self_of_getLast (fun ch hch => by
              rw [hlast] at hch
              injection hch with hh
              exact fun hcc => hne0 (hh.trans hcc))
          have hstrip : rstripL (rstripL (formatFL (Dec.fin s c e)) '0') '.' =
              formatFL (Dec.fin s c e) := by
            rw [hstrip1]
            exact rstripL_eq_self_of_getLast (fun ch hch => by
              rw [hlast] at hch
              injection hch with hh
              exact fun hcc => hnedot (hh.trans hcc))
          split_ifs with hdot
          · intro _
            rw [show (String.mk (rstripL (rstripL (formatFL (Dec.fin s c e)) '0')
                '.')).data = rstripL (rstripL (formatFL (Dec.fin s c e)) '0') '.'
              from rfl, hstrip, hlast]
            exact ⟨fun hx => hne0 (by injection hx), fun hx => hnedot (by injection hx)⟩
          · intro h
            exact absurd ((char_contains_iff _ _).mpr h) hdot

theorem dmul_of_fits (s1 : Bool) (c1 : Nat) (e1 : Int) (s2 : Bool) (c2 : Nat) (e2 : Int)
    (h : c1 * c2 < 10 ^ prec) :
    dmul (.fin s1 c1 e1) (.fin s2 c2 e2) = .fin (xor s1 s2) (c1 * c2) (e1 + e2) := by
  unfold dmul
  dsimp only
  rw [fixPrec_of_fits (e1 + e2) h]

theorem compute_amount_cases (row : Obj) :
    compute_amount row = "" ∨ ∃ d, compute_amount row = fmt_decimal d := by
  unfold compute_amount
  cases to_decimal (aget row "freight") with
  | none => cases to_decimal (aget row "settleTons") <;> exact Or.inl rfl
  | some f =>
      cases to_decimal (aget row "settleTons") with
      | none => exact Or.inl rfl
      | some s => exact Or.inr ⟨dmul f s, rfl⟩

/-- C2 (amended): `compute_amount` is `""` exactly when an operand is missing,
blank or unparsable; on finite parses it is the product computed in the
default 28-significant-digit decimal context, formatted canonically — exact
whenever the product's coefficient fits in 28 digits — and a formatted result
containing a decimal point never ends in a zero or in the point. -/
theorem C2_amended :
    (∀ row : Obj, (to_decimal (aget row "freight") = none ∨
        to_decimal (aget row "settleTons") = none) → compute_amount row = "") ∧
    (∀ (row : Obj) (s1 : Bool) (c1 : Nat) (e1 : Int) (s2 : Bool) (c2 : Nat) (e2 : Int),
      to_decimal (aget row "freight") = some (.fin s1 c1 e1) →
      to_decimal (aget row "settleTons") = some (.fin s2 c2 e2) →
      c1 * c2 < 10 ^ prec →
      compute_amount row = fmt_decimal (.fin (xor s1 s2) (c1 * c2) (e1 + e2)) ∧
      (Dec.fin (xor s1 s2) (c1 * c2) (e1 + e2)).toRat =
        (Dec.fin s1 c1 e1).toRat * (Dec.fin s2 c2 e2).toRat) ∧
    (∀ row : Obj, '.' ∈ (compute_amount row).data →
      (compute_amount row).data.getLast? ≠ some '0' ∧
      (compute_amount row).data.getLast? ≠ some '.') := by
  refine ⟨?_, ?_, ?_⟩
  · intro row h
    unfold compute_amount
    rcases h with h | h
    · rw [h]
    · rw [h]
      cases to_decimal (aget row "freight") <;> rfl
  · intro row s1 c1 e1 s2 c2 e2 h1 h2 hfit
    constructor
    · unfold compute_amount
      rw [h1, h2]
      dsimp only
      rw [dmul_of_fits s1 c1 e1 s2 c2 e2 hfit]
    · rw [← dmul_of_fits s1 c1 e1 s2 c2 e2 hfit]
      exact toRat_dmul_exact s1 c1 e1 s2 c2 e2 hfit
  · intro row h
    rcases compute_amount_cases row with he | ⟨d, he⟩
    · rw [he] at h
      exact absurd h (by decide)
    · rw [he] at h ⊢
      exact fmt_decimal_canonical d h

/-- C2 witness: the claim's own example, `"100" × "2.5" = "250"`, and the
blank case. -/
theorem C2_witness :
    compute_amount [("freight", JVal.str "100"), ("settleTons", JVal.str "2.5")] =
      "250" ∧
    compute_amount [("freight", JVal.str "100")] = "" := by
  constructor
  · have h := (C2_amended.2.1) [("freight", JVal.str "100"), ("settleTons", JVal.str "2.5")]
      false 100 0 false 25 (-1) (by decide) (by decide) (by decide)
    exact h.1.trans (by decide)
  · exact C2_amended.1 [("freight", JVal.str "100")] (Or.inr rfl)

/-- C2 counterexample: two 17-digit operands.  The exact product is
`100000000000000020000000000000001` (33 digits), but Python's default context
rounds the multiplication to 28 significant digits, so `compute_amount`
returns `"100000000000000020000000000000000"` — not the exact decimal
product. -/
theorem C2_counterexample :
    compute_amount [("freight", JVal.str "10000000000000001"),
        ("settleTons", JVal.str "10000000000000001")] =
      "100000000000000020000000000000000" ∧
    compute_amount [("freight", JVal.str "10000000000000001"),
        ("settleTons", JVal.str "10000000000000001")] ≠
      "100000000000000020000000000000001" ∧
    (10000000000000001 : Int) * 10000000000000001 =
      100000000000000020000000000000001 := by
  refine ⟨by decide, by decide, by norm_num⟩

/-! ### C4: the summary total and name -/

/-- Whether a context addition is exact: both operands finite and the exact
aligned sum's coefficient within the 28-digit precision. -/
def daddFits : Dec → Dec → Bool
  | .fin s1 c1 e1, .fin s2 c2 e2 => decide ((addSumInt s1 c1 e1 s2 c2 e2).natAbs < 10 ^ prec)
  | _, _ => false

/-- Whether every addition performed while accumulating the amounts of `rows`
onto a running total is exact. -/
def sumFitsAux : Dec → List JVal → Bool
  | _, [] => true
  | tot, .obj f :: rest =>
      (match to_decimal (aget f "amount") with
      | some a => daddFits tot a && sumFitsAux (dadd tot a) rest
      | none => sumFitsAux tot rest)
  | tot, .null :: rest => sumFitsAux tot rest
  | tot, .bool _ :: rest => sumFitsAux tot rest
  | tot, .num _ :: rest => sumFitsAux tot rest
  | tot, .str _ :: rest => sumFitsAux tot rest
  | tot, .arr _ :: rest => sumFitsAux tot rest

/-- The specified summary total, as a rational: parseable amounts contribute
their exact value, everything else contributes zero (per-row body). -/
def exactAddAmount (q : ℚ) (r : JVal) : ℚ :=
  match r with
  | .obj f =>
      match to_decimal (aget f "amount") with
      | some a => q + a.toRat
      | none => q
  | _ => q

def exactAmountFold (q : ℚ) (rows : List JVal) : ℚ := rows.foldl exactAddAmount q

/-- The spec's "exact Decimal sum of parseDecimal(row.amount) over all rows
where the amount parses". -/
def exactAmountSum (rows : List JVal) : ℚ := exactAmountFold 0 rows

theorem toRat_dzero : (Dec.fin false 0 0).toRat = 0 := by
  unfold Dec.toRat
  simp

theorem toRat_dadd_of_fits (t a : Dec) (h : daddFits t a = true) :
    (dadd t a).toRat = t.toRat + a.toRat := by
  cases t with
  | fin s1 c1 e1 =>
      cases a with
      | fin s2 c2 e2 => exact toRat_dadd_exact s1 c1 e1 s2 c2 e2 (of_decide_eq_true h)
      | nan => exact Bool.noConfusion h
      | inf s => exact Bool.noConfusion h
  | nan => cases a <;> exact Bool.noConfusion h
  | inf s => cases a <;> exact Bool.noConfusion h

theorem sumExactAux : ∀ (l : List JVal) (tot : Dec), sumFitsAux tot l = true →
    (l.foldl addAmount tot).toRat = exactAmountFold tot.toRat l := by
  intro l
  induction l with
  | nil => intro tot _; rfl
  | cons hd tl ih =>
      intro tot hfit
      cases hd with
      | obj f =>
          cases hp : to_decimal (aget f "amount") with
          | none =>
              have h1 : addAmount tot (.obj f) = tot := by
                unfold addAmount
                dsimp only
                rw [hp]
              have h2 : exactAddAmount tot.toRat (.obj f) = tot.toRat := by
                unfold exactAddAmount
                dsimp only
                rw [hp]
              have hfit' : sumFitsAux tot tl = true := by
                unfold sumFitsAux at hfit
                rw [hp] at hfit
                exact hfit
              rw [List.foldl_cons, h1]
              show _ = tl.foldl exactAddAmount (exactAddAmount tot.toRat (.obj f))
              rw [h2]
              exact ih tot hfit'
          | some a =>
              have h1 : addAmount tot (.obj f) = dadd tot a := by
                unfold addAmount
                dsimp only
                rw [hp]
              have h2 : exactAddAmount tot.toRat (.obj f) = tot.toRat + a.toRat := by
                unfold exactAddAmount
                dsimp only
                rw [hp]
              have hfit2 : daddFits tot a = true ∧ sumFitsAux (dadd tot a) tl = true := by
                unfold sumFitsAux at hfit
                rw [hp] at hfit
                exact Bool.and_eq_true_iff.mp hfit
              rw [List.foldl_cons, h1]
              show _ = tl.foldl exactAddAmount (exactAddAmount tot.toRat (.obj f))
              rw [h2, ← toRat_dadd_of_fits tot a hfit2.1]
              exact ih (dadd tot a) hfit2.2
      | null => exact ih tot hfit
      | bool b => exact ih tot hfit
      | num n => exact ih tot hfit
      | str s => exact ih tot hfit
      | arr l2 => exact ih tot hfit

theorem sumAmounts_exact (rows : List JVal)
    (h : sumFitsAux (.fin false 0 0) rows = true) :
    (sumAmounts rows).toRat = exactAmountSum rows := by
  unfold sumAmounts exactAmountSum
  rw [sumExactAux rows _ h, toRat_dzero]

/-- The last row of a normalized table carries an ISO load date. -/
theorem sumEndIso_normalize (cfg : Obj) (gen : Nat → String) (today : PyDate) (t : Obj)
    (h : 0 < (rowsInOf (normalize_table cfg gen today t)).length) :
    ∃ dd : PyDate, sumEndIso (rowsInOf (normalize_table cfg gen today t)) = dd.toIso := by
  cases hl : (rowsInOf (normalize_table cfg gen today t)).getLast? with
  | none =>
      rw [List.getLast?_eq_none_iff] at hl
      rw [hl] at h
      simp at h
  | some r =>
      have hm : r ∈ rowsInOf (normalize_table cfg gen today t) := by
        rw [List.getLast?_eq_getElem?] at hl
        exact List.getElem?_mem hl
      rw [rowsInOf_normalize] at hm
      obtain ⟨g, rfl, dd, hld⟩ := normRows_mem cfg gen (resolveStart today t)
        (rowsInOf t) 0 r hm
      refine ⟨dd, ?_⟩
      unfold sumEndIso
      rw [hl]
      show pyStrip (strOr (aget g "loadDate")) = dd.toIso
      rw [hld, strOr_str, pyStrip_toIso]

/-- C4 (amended): `summarize_table` normalizes first and only changes the
name; the total is the amounts accumulated with context (28-digit) decimal
additions, which equals the exact sum whenever every partial sum fits in 28
digits; the name is `"{startDate}-{lastRowLoadDate}"` on a non-empty row list
and `"{startDate}-"` on an empty one, with `startDate` the normalized start. -/
theorem C4_amended (cfg : Obj) (gen : Nat → String) (today : PyDate) (t : Obj) :
    ((summarize_table cfg gen today t).2 =
      sumAmounts (rowsInOf (normalize_table cfg gen today t))) ∧
    (∀ k, k ≠ "name" →
      aget (summarize_table cfg gen today t).1 k =
        aget (normalize_table cfg gen today t) k) ∧
    (sumStartIso today (normalize_table cfg gen today t) =
      (resolveStart today t).toIso) ∧
    (sumFitsAux (.fin false 0 0) (rowsInOf (normalize_table cfg gen today t)) = true →
      (summarize_table cfg gen today t).2.toRat =
        exactAmountSum (rowsInOf (normalize_table cfg gen today t))) ∧
    ((rowsInOf (normalize_table cfg gen today t)).length = 0 →
      aget (summarize_table cfg gen today t).1 "name" =
        some (.str (sumStartIso today (normalize_table cfg gen today t) ++ "-"))) ∧
    (0 < (rowsInOf (normalize_table cfg gen today t)).length →
      sumEndIso (rowsInOf (normalize_table cfg gen today t)) ≠ "" ∧
      aget (summarize_table cfg gen today t).1 "name" =
        some (.str (sumStartIso today (normalize_table cfg gen today t) ++ "-" ++
          sumEndIso (rowsInOf (normalize_table cfg gen today t))))) := by
  refine ⟨rfl, ?_, ?_, ?_, ?_, ?_⟩
  · intro k hk
    unfold summarize_table
    dsimp only
    exact aget_aset_ne _ _ _ _ (fun he => hk he.symm)
  · unfold sumStartIso
    rw [normalize_startDate, strOr_str, pyStrip_toIso,
      if_pos (toIso_ne_empty (resolveStart today t))]
  · intro h
    exact sumAmounts_exact _ h
  · intro h0
    have hnil : rowsInOf (normalize_table cfg gen today t) = [] :=
      List.length_eq_zero.mp h0
    have hname : sumName today (normalize_table cfg gen today t) =
        sumStartIso today (normalize_table cfg gen today t) ++ "-" := by
      unfold sumName
      rw [hnil]
      rw [show sumEndIso ([] : List JVal) = "" from rfl]
      rw [if_neg (fun hne => hne rfl)]
    unfold summarize_table
    dsimp only
    rw [aget_aset_self, hname]
  · intro hpos
    obtain ⟨dd, hdd⟩ := sumEndIso_normalize cfg gen today t hpos
    have hne : sumEndIso (rowsInOf (normalize_table cfg gen today t)) ≠ "" := by
      rw [hdd]
      exact toIso_ne_empty dd
    refine ⟨hne, ?_⟩
    have hname : sumName today (normalize_table cfg gen today t) =
        sumStartIso today (normalize_table cfg gen today t) ++ "-" ++
          sumEndIso (rowsInOf (normalize_table cfg gen today t)) := by
      unfold sumName
      rw [if_pos hne]
    unfold summarize_table
    dsimp only
    rw [aget_aset_self, hname]

def c4gen : Nat → String := fun _ => "rid"

def c4today : PyDate := ⟨2026, 1, 5⟩

def c4wTbl : Obj :=
  [("startDate", .str "2026-01-01"),
   ("rows", .arr [.obj [("id", .str "r1"), ("vehicle", .str "v"), ("model", .str "m"),
     ("freight", .str "100"), ("settleTons", .str "2.5")]])]

/-- C4 witness: a one-row table whose amount is `"250"`; every partial sum
fits, the total is exactly `250`, and the table is renamed
`"2026-01-01-2026-01-01"`. -/
theorem C4_witness :
    sumFitsAux (.fin false 0 0) (rowsInOf (normalize_table [] c4gen c4today c4wTbl)) =
      true ∧
    (summarize_table [] c4gen c4today c4wTbl).2.toRat =
      exactAmountSum (rowsInOf (normalize_table [] c4gen c4today c4wTbl)) ∧
    aget (summarize_table [] c4gen c4today c4wTbl).1 "name" =
      some (.str "2026-01-01-2026-01-01") := by
  refine ⟨by decide, (C4_amended [] c4gen c4today c4wTbl).2.2.2.1 (by decide),
    (((C4_amended [] c4gen c4today c4wTbl).2.2.2.2.2 (by decide)).2).trans ?_⟩
  rfl

def c4row (fr : String) : JVal :=
  .obj [("id", .str "r"), ("vehicle", .str "v"), ("model", .str "m"),
    ("freight", .str fr), ("settleTons", .str "1")]

def c4cexTbl : Obj :=
  [("startDate", .str "2026-01-01"),
   ("rows", .arr [c4row "9999999999999999999999999999", c4row "2"])]

/-- C4 counterexample: amounts `9999999999999999999999999999` (28 digits) and
`2`.  Their exact sum is `10^28 + 1`, but the context addition rounds to 28
significant digits, so the returned total is `1E+28` — not the exact decimal
sum. -/
theorem C4_counterexample :
    (summarize_table [] c4gen c4today c4cexTbl).2 = .fin false (10 ^ 27) 1 ∧
    (summarize_table [] c4gen c4today c4cexTbl).2.toRat = 10 ^ 28 ∧
    exactAmountSum (rowsInOf (normalize_table [] c4gen c4today c4cexTbl)) =
      10 ^ 28 + 1 ∧
    ((10 : ℚ) ^ 28 ≠ 10 ^ 28 + 1) := by
  have h1 : (summarize_table [] c4gen c4today c4cexTbl).2 = .fin false (10 ^ 27) 1 := by
    decide
  have h2 : (Dec.fin false (10 ^ 27) 1).toRat = 10 ^ 28 := by
    unfold Dec.toRat
    simp only [Bool.cond_false]
    rw [zpow_one]
    push_cast
    ring
  have hsum : exactAmountSum (rowsInOf (normalize_table [] c4gen c4today c4cexTbl)) =
      (0 + (Dec.fin false 9999999999999999999999999999 0).toRat) +
        (Dec.fin false 2 0).toRat := rfl
  have h3 : (Dec.fin false 9999999999999999999999999999 0).toRat =
      9999999999999999999999999999 := by
    unfold Dec.toRat
    simp only [Bool.cond_false]
    rw [zpow_zero]
    push_cast
    ring
  have h4 : (Dec.fin false 2 0).toRat = 2 := by
    unfold Dec.toRat
    simp only [Bool.cond_false]
    rw [zpow_zero]
    push_cast
    ring
  refine ⟨h1, ?_, ?_, by norm_num⟩
  · rw [h1, h2]
  · rw [hsum, h3, h4]
    norm_num

/-! ### C5: `touch_recent` -/

/-- C5 (amended): whenever the stored `recentTableIds` value (defaulted to the
empty list) is iterable and `int(recentLimit or 12)` succeeds, `touch_recent`
returns the config with only `recentTableIds` replaced: the touched id is at
the front, it occurs exactly once as a string, and the length is at most
`max 1 limit`.  On a non-iterable `recentTableIds` or a truthy non-numeric
`recentLimit` the call raises instead. -/
theorem C5_amended (cfg : Obj) (tableId : String) (xs : List JVal) (n : Int)
    (hiter : pyIter (match aget cfg "recentTableIds" with
      | some v => v
      | none => .arr []) = some xs)
    (hlim : pyToInt (pyOr (aget cfg "recentLimit") (.num 12)) = some n) :
    ∃ l', touch_recent cfg tableId = .ok (aset cfg "recentTableIds" (.arr l')) ∧
      l'.head? = some (.str tableId) ∧
      l'.countP (fun x => pyEqJS x tableId) = 1 ∧
      l'.length ≤ (max 1 n).toNat ∧
      ∀ k, k ≠ "recentTableIds" →
        aget (aset cfg "recentTableIds" (.arr l')) k = aget cfg k := by
  have hstep : touch_recent cfg tableId =
      .ok (aset cfg "recentTableIds"
        (.arr ((JVal.str tableId :: xs.filter (fun x => !(pyEqJS x tableId))).take
          (max 1 n).toNat))) := by
    unfold touch_recent
    rw [hiter]
    dsimp only
    rw [hlim]
  obtain ⟨m, hm⟩ : ∃ m, (max 1 n).toNat = m + 1 := by
    refine ⟨(max 1 n).toNat - 1, ?_⟩
    omega
  refine ⟨_, hstep, ?_, ?_, ?_, ?_⟩
  · rw [hm, List.take_succ_cons]
    rfl
  · rw [hm, List.take_succ_cons, List.countP_cons]
    have hzero : (List.countP (fun x => pyEqJS x tableId)
        ((xs.filter (fun x => !(pyEqJS x tableId))).take m)) = 0 := by
      rw [List.countP_eq_zero]
      intro a ha
      have := List.of_mem_filter (List.mem_of_mem_take ha)
      simpa using this
    rw [hzero, if_pos (by simp [pyEqJS])]
  · exact List.length_take_le _ _
  · intro k hk
    exact aget_aset_ne _ _ _ _ (fun he => hk he.symm)

def c5wCfg : Obj :=
  [("recentTableIds", .arr [.str "a", .str "t1", .str "b"]), ("recentLimit", .num 2)]

/-- C5 witness: touching `"t1"` with limit 2 on `["a", "t1", "b"]`. -/
theorem C5_witness :
    ∃ l', touch_recent c5wCfg "t1" = .ok (aset c5wCfg "recentTableIds" (.arr l')) ∧
      l'.head? = some (.str "t1") ∧
      l'.countP (fun x => pyEqJS x "t1") = 1 ∧
      l'.length ≤ (max 1 (2 : Int)).toNat ∧
      ∀ k, k ≠ "recentTableIds" →
        aget (aset c5wCfg "recentTableIds" (.arr l')) k = aget c5wCfg k :=
  C5_amended c5wCfg "t1" [.str "a", .str "t1", .str "b"] 2 rfl rfl

def c5cexCfg : Obj := [("recentTableIds", .arr []), ("recentLimit", .str "x")]

/-- C5 counterexample: a config with `recentLimit = "x"` makes
`int(cfg.get("recentLimit") or 12)` raise `ValueError`, and a numeric
`recentTableIds` makes the comprehension raise `TypeError`: `touch_recent`
does not return a config for every input config. -/
theorem C5_counterexample :
    touch_recent c5cexCfg "t1" = .error "ValueError: invalid literal for int()" ∧
    (∀ out, touch_recent c5cexCfg "t1" ≠ .ok out) ∧
    touch_recent [("recentTableIds", JVal.num 3)] "t1" =
      .error "TypeError: recentTableIds object is not iterable" := by
  refine ⟨rfl, ?_, rfl⟩
  intro out h
  rw [show touch_recent c5cexCfg "t1" =
    .error "ValueError: invalid literal for int()" from rfl] at h
  exact Except.noConfusion h

/-! ### C6/C7: `save_table` and `load_table_by_id` -/

/-- C6 (amended): for a table whose id is a non-blank string with no
surrounding whitespace, saving and then loading by that id returns the table
with the same id and the same rows (only `updatedAt` is rewritten).  When the
id has surrounding whitespace, the file is keyed by the stripped id, so
loading by the table's own id misses. -/
theorem C6_amended (fs : FS) (now : String) (table : Obj) (s : String)
    (hid : aget table "id" = some (.str s))
    (hstrip : pyStrip s = s) (hne : s ≠ "") :
    ∃ fs', save_table fs now table = .ok fs' ∧
      load_table_by_id fs' s = some (aset table "updatedAt" (.str now)) ∧
      aget (aset table "updatedAt" (.str now)) "id" = some (.str s) ∧
      rowsInOf (aset table "updatedAt" (.str now)) = rowsInOf table ∧
      ∀ k, k ≠ "updatedAt" →
        aget (aset table "updatedAt" (.str now)) k = aget table k := by
  have hsave : save_table fs now table =
      .ok (write_json_atomic fs (s ++ ".json")
        (.obj (aset table "updatedAt" (.str now)))) := by
    unfold save_table
    rw [hid, strOr_str, hstrip, if_neg hne]
  refine ⟨_, hsave, ?_, ?_, ?_, ?_⟩
  · unfold load_table_by_id write_json_atomic read_json
    rw [aget_aset_self]
  · rw [aget_aset_ne _ _ _ _ (by decide)]
    exact hid
  · unfold rowsInOf
    rw [aget_aset_ne _ _ _ _ (by decide)]
  · intro k hk
    exact aget_aset_ne _ _ _ _ (fun he => hk he.symm)

def c6wTbl : Obj := [("id", .str "t1"), ("rows", .arr [.obj []])]

/-- C6 witness: a clean id `"t1"` round-trips. -/
theorem C6_witness :
    ∃ fs', save_table [] "N" c6wTbl = .ok fs' ∧
      load_table_by_id fs' "t1" = some (aset c6wTbl "updatedAt" (.str "N")) ∧
      aget (aset c6wTbl "updatedAt" (.str "N")) "id" = some (.str "t1") ∧
      rowsInOf (aset c6wTbl "updatedAt" (.str "N")) = rowsInOf c6wTbl ∧
      ∀ k, k ≠ "updatedAt" →
        aget (aset c6wTbl "updatedAt" (.str "N")) k = aget c6wTbl k :=
  C6_amended [] "N" c6wTbl "t1" rfl rfl (by decide)

def c6cexTbl : Obj := [("id", .str " a"), ("rows", .arr [])]

/-- C6 counterexample: the non-blank id `" a"` is saved under the stripped
filename `a.json`, so loading by the table's own id `" a"` finds nothing. -/
theorem C6_counterexample :
    save_table [] "N" c6cexTbl =
      .ok [("a.json", FileData.json (.obj (aset c6cexTbl "updatedAt" (.str "N"))))] ∧
    load_table_by_id
      [("a.json", FileData.json (.obj (aset c6cexTbl "updatedAt" (.str "N"))))]
      " a" = none ∧
    (load_table_by_id
      [("a.json", FileData.json (.obj (aset c6cexTbl "updatedAt" (.str "N"))))]
      "a").isSome = true :=
  ⟨rfl, rfl, rfl⟩

/-- C7 (amended): `save_table` fails with the validation error exactly when
`str(table.get("id") or "").strip()` is empty — so for an id that is missing,
`None`, or a string, exactly when the id is blank — and a table with a
non-blank string id is persisted under the STRIPPED id's filename
`"{id.strip()}.json"` with only `updatedAt` rewritten. -/
theorem C7_amended (fs : FS) (now : String) (table : Obj) :
    (save_table fs now table = .error "table.id 不能为空" ↔
      pyStrip (strOr (aget table "id")) = "") ∧
    ((aget table "id" = none ∨ aget table "id" = some .null) →
      save_table fs now table = .error "table.id 不能为空") ∧
    (∀ s, aget table "id" = some (.str s) →
      (save_table fs now table = .error "table.id 不能为空" ↔ pyStrip s = "")) ∧
    (∀ s, aget table "id" = some (.str s) → pyStrip s ≠ "" →
      save_table fs now table =
        .ok (write_json_atomic fs (pyStrip s ++ ".json")
          (.obj (aset table "updatedAt" (.str now))))) := by
  have hmain : save_table fs now table = .error "table.id 不能为空" ↔
      pyStrip (strOr (aget table "id")) = "" := by
    unfold save_table
    split_ifs with h
    · exact ⟨fun _ => h, fun _ => rfl⟩
    · exact ⟨fun he => (nomatch he), fun hs => absurd hs h⟩
  refine ⟨hmain, ?_, ?_, ?_⟩
  · intro h
    rcases h with h | h <;> (unfold save_table; rw [h]; rfl)
  · intro s hs
    rw [hmain, hs, strOr_str]
  · intro s hs hne
    unfold save_table
    rw [hs, strOr_str, if_neg hne]

/-- C7 witness: a whitespace-padded id is written under the stripped
filename; a table without an id errors. -/
theorem C7_witness :
    save_table [] "N" [("id", JVal.str " a")] =
      .ok (write_json_atomic [] (pyStrip " a" ++ ".json")
        (.obj (aset [("id", JVal.str " a")] "updatedAt" (.str "N")))) ∧
    save_table [] "N" [("rows", JVal.arr [])] = .error "table.id 不能为空" :=
  ⟨(C7_amended [] "N" [("id", JVal.str " a")]).2.2.2 " a" rfl (by decide),
   (C7_amended [] "N" [("rows", JVal.arr [])]).2.1 (Or.inl rfl)⟩

/-- C7 counterexample: the id `" a"` is not blank, yet the file is written
under `"a.json"` and nothing exists under the claim's filename `" a.json"`. -/
theorem C7_counterexample :
    save_table [] "N" [("id", JVal.str " a")] =
      .ok [("a.json", FileData.json
        (.obj (aset [("id", JVal.str " a")] "updatedAt" (.str "N"))))] ∧
    aget [("a.json", FileData.json
        (.obj (aset [("id", JVal.str " a")] "updatedAt" (.str "N"))))] " a.json" =
      none ∧
    pyStrip " a" ≠ "" ∧ " a" ++ ".json" ≠ "a.json" :=
  ⟨rfl, rfl, by decide, by decide⟩

/-! ### C8: `_read_json` -/

/-- C8 (confirmed): `_read_json` is total on the modelled filesystem — the
parsed value when the file exists and parses, the given default when the file
is absent (`FileNotFoundError`) or malformed (any parse failure). -/
theorem C8_confirmed (fs : FS) (path : String) (dflt : JVal) :
    (aget fs path = none → read_json fs path dflt = dflt) ∧
    (aget fs path = some .malformed → read_json fs path dflt = dflt) ∧
    (∀ v, aget fs path = some (.json v) → read_json fs path dflt = v) := by
  refine ⟨?_, ?_, ?_⟩
  · intro h
    unfold read_json
    rw [h]
  · intro h
    unfold read_json
    rw [h]
  · intro v h
    unfold read_json
    rw [h]

/-- C8 witness: a missing file, a malformed file, and a parsed file. -/
theorem C8_witness :
    read_json [("a.json", FileData.json (.str "x"))] "b.json" .null = .null ∧
    read_json [("a.json", FileData.malformed)] "a.json" (.num 7) = .num 7 ∧
    read_json [("a.json", FileData.json (.str "x"))] "a.json" .null = .str "x" :=
  ⟨(C8_confirmed [("a.json", FileData.json (.str "x"))] "b.json" .null).1 rfl,
   (C8_confirmed [("a.json", FileData.malformed)] "a.json" (.num 7)).2.1 rfl,
   (C8_confirmed [("a.json", FileData.json (.str "x"))] "a.json" .null).2.2 _ rfl⟩

/-! ### C9: `load_config` -/

theorem aget_asetdefault_eq {α : Type} (m : List (String × α)) (k : String) (v : α) :
    aget (asetdefault m k v) k = some ((aget m k).getD v) := by
  cases h : aget m k with
  | none => simp [aget_asetdefault_of_absent v h, aget_aset_self, h]
  | some w => rw [aget_asetdefault_of_contains v h, h]; rfl

theorem aget_setdefaults : ∀ (ds : List (String × JVal)) (m : Obj) (k : String),
    aget (setdefaults m ds) k = (aget m k).or (aget ds k) := by
  intro ds
  induction ds with
  | nil =>
      intro m k
      show aget m k = (aget m k).or none
      cases aget m k <;> rfl
  | cons hd rest ih =>
      obtain ⟨k0, v0⟩ := hd
      intro m k
      show aget (setdefaults (asetdefault m k0 v0) rest) k = _
      rw [ih]
      by_cases hk : k0 = k
      · subst hk
        rw [aget_asetdefault_eq]
        show _ = (aget m k0).or (if k0 = k0 then some v0 else aget rest k0)
        rw [if_pos rfl]
        cases aget m k0 <;> rfl
      · rw [aget_asetdefault_ne _ _ _ _ hk]
        show _ = (aget m k).or (if k0 = k then some v0 else aget rest k)
        rw [if_neg hk]

theorem aget_fixListKey_ne (m : Obj) (k : String) (d : JVal) {k' : String}
    (h : k ≠ k') : aget (fixListKey m k d) k' = aget m k' := by
  unfold fixListKey
  split_ifs with hb
  · exact aget_aset_ne _ _ _ _ h
  · rfl

theorem aget_fixListKey_self (m : Obj) (k : String) (d : JVal) :
    aget (fixListKey m k d) k =
      if isListV (aget m k) then aget m k else some d := by
  unfold fixListKey
  cases hlv : isListV (aget m k) with
  | true => simp
  | false => simp [aget_aset_self]

/-- C9 (amended): when the stored config document parses as a dict `m`,
`load_config` fills each missing key with its default, preserves every
present value of the non-list-managed keys — including wrong-typed ones and
unknown/extra keys — and repairs only the three list-valued keys
(`recentTableIds`, `loadPlaces`, `unloadPlaces`), replacing their value with
the default exactly when it is not a list. -/
theorem C9_amended (fs : FS) (now : String) (m : Obj)
    (hdoc : read_json fs "config.json" (.obj (default_config now)) = .obj m) :
    (∀ k d, aget m k = none → aget (default_config now) k = some d →
      aget (load_config fs now) k = some d) ∧
    (∀ k v, aget m k = some v → k ≠ "recentTableIds" → k ≠ "loadPlaces" →
      k ≠ "unloadPlaces" → aget (load_config fs now) k = some v) ∧
    (∀ v, aget m "recentTableIds" = some v →
      aget (load_config fs now) "recentTableIds" =
        some (if isListV (some v) then v else .arr [])) ∧
    (∀ v, aget m "loadPlaces" = some v →
      aget (load_config fs now) "loadPlaces" =
        some (if isListV (some v) then v else loadPlacesDefault)) ∧
    (∀ v, aget m "unloadPlaces" = some v →
      aget (load_config fs now) "unloadPlaces" =
        some (if isListV (some v) then v else unloadPlacesDefault)) := by
  have hm : configDocOf fs now = m := by
    unfold configDocOf
    rw [hdoc]
  refine ⟨?_, ?_, ?_, ?_, ?_⟩
  · intro k d hk hd
    have hS : aget (setdefaults (configDocOf fs now) (default_config now)) k = some d := by
      rw [aget_setdefaults, hm, hk, hd]
      rfl
    unfold load_config
    by_cases h1 : k = "recentTableIds"
    · subst h1
      obtain rfl := Option.some.inj hd
      rw [aget_fixListKey_ne _ _ _ (by decide), aget_fixListKey_ne _ _ _ (by decide),
        aget_fixListKey_self, hS]
      rfl
    · by_cases h2 : k = "loadPlaces"
      · subst h2
        obtain rfl := Option.some.inj hd
        rw [aget_fixListKey_ne _ _ _ (by decide), aget_fixListKey_self,
          aget_fixListKey_ne _ _ _ (by decide), hS]
        rfl
      · by_cases h3 : k = "unloadPlaces"
        · subst h3
          obtain rfl := Option.some.inj hd
          rw [aget_fixListKey_self, aget_fixListKey_ne _ _ _ (by decide),
            aget_fixListKey_ne _ _ _ (by decide), hS]
          rfl
        · rw [aget_fixListKey_ne _ _ _ (fun he => h3 he.symm),
            aget_fixListKey_ne _ _ _ (fun he => h2 he.symm),
            aget_fixListKey_ne _ _ _ (fun he => h1 he.symm), hS]
  · intro k v hk h1 h2 h3
    unfold load_config
    rw [aget_fixListKey_ne _ _ _ (fun he => h3 he.symm),
      aget_fixListKey_ne _ _ _ (fun he => h2 he.symm),
      aget_fixListKey_ne _ _ _ (fun he => h1 he.symm),
      aget_setdefaults, hm, hk]
    rfl
  · intro v hv
    unfold load_config
    rw [aget_fixListKey_ne _ _ _ (by decide), aget_fixListKey_ne _ _ _ (by decide),
      aget_fixListKey_self, aget_setdefaults, hm, hv]
    rw [show (Option.or (some v) (aget (default_config now) "recentTableIds")) =
      some v from rfl]
    cases hlv : isListV (some v) <;> simp
  · intro v hv
    unfold load_config
    rw [aget_fixListKey_ne _ _ _ (by decide), aget_fixListKey_self,
      aget_fixListKey_ne _ _ _ (by decide), aget_setdefaults, hm, hv]
    rw [show (Option.or (some v) (aget (default_config now) "loadPlaces")) =
      some v from rfl]
    cases hlv : isListV (some v) <;> simp
  · intro v hv
    unfold load_config
    rw [aget_fixListKey_self, aget_fixListKey_ne _ _ _ (by decide),
      aget_fixListKey_ne _ _ _ (by decide), aget_setdefaults, hm, hv]
    rw [show (Option.or (some v) (aget (default_config now) "unloadPlaces")) =
      some v from rfl]
    cases hlv : isListV (some v) <;> simp

def c9fs : FS :=
  [("config.json", FileData.json (.obj
    [("recentLimit", .num 5), ("extra", .str "e"), ("loadPlaces", .str "bad")]))]

/-- C9 witness: a stored config with a present key, an unknown key and a
wrong-typed list key: the missing `autosaveMs` is defaulted, `recentLimit`
and `extra` survive, the non-list `loadPlaces` is repaired. -/
theorem C9_witness :
    aget (load_config c9fs "T") "autosaveMs" = some (.num 600) ∧
    aget (load_config c9fs "T") "recentLimit" = some (.num 5) ∧
    aget (load_config c9fs "T") "extra" = some (.str "e") ∧
    aget (load_config c9fs "T") "loadPlaces" = some loadPlacesDefault :=
  ⟨(C9_amended c9fs "T" _ rfl).1 "autosaveMs" _ rfl rfl,
   (C9_amended c9fs "T" _ rfl).2.1 "recentLimit" _ rfl (by decide) (by decide) (by decide),
   (C9_amended c9fs "T" _ rfl).2.1 "extra" _ rfl (by decide) (by decide) (by decide),
   ((C9_amended c9fs "T" _ rfl).2.2.2.1 _ rfl).trans rfl⟩

def c9cexFs : FS := [("config.json", FileData.json (.obj [("recentLimit", .str "x")]))]

/-- C9 counterexample: a wrong-typed `recentLimit` (a string instead of the
default number) is NOT replaced by its default — only the three list keys are
type-checked. -/
theorem C9_counterexample :
    aget (load_config c9cexFs "T") "recentLimit" = some (.str "x") ∧
    aget (default_config "T") "recentLimit" = some (.num 12) ∧
    JVal.str "x" ≠ JVal.num 12 :=
  ⟨rfl, rfl, fun h => JVal.noConfusion h⟩

end TableStats
